import Mathlib

/-!
Verification of the aspect-ratio geometry and batch orchestration of
`change_aspect_ratio.py` / `constants.py`, via a shallow embedding.

Python integers are modelled by `Int` (or `Nat` where the source values are
sizes), Python floor division `//` by `Int.fdiv`, and Python float
arithmetic on the aspect ratios by an executable model of IEEE 754 binary64:
a value is a significand-exponent pair, `int`-to-float conversion, `/`, `*`
and `<` are correctly rounded to 53 significant bits with ties to even, and
`int(...)` truncates.  The external imaging primitive `cv2.resize` is an
out-of-scope collaborator: it is passed in as an explicit function parameter
`resizeFn`, and theorems assume of it only what the library documents (the
returned buffer has exactly the requested dimensions; resizing to the same
size is content-preserving).  Operations of the source that can raise —
the aspect-ratio divisions, `cv2.resize` on an empty source or zero target,
the canvas slice assignment on a region that does not broadcast — return
`Except`, with the error path explicit.
-/

namespace Tools

/-- A BGR color triple, as used by the OpenCV-based source. -/
structure Color where
  b : Nat
  g : Nat
  r : Nat
deriving DecidableEq, Repr

/-- An image: dimensions plus a pixel map (`numpy` array of shape
`(height, width, channels)` in the source).  `pixel x y` reads column `x`,
row `y`; values outside the dimensions are irrelevant. -/
structure Image where
  width : Nat
  height : Nat
  pixel : Nat → Nat → Color

/-- Two images have equivalent content when their dimensions agree and their
pixels agree everywhere inside those dimensions. -/
def Image.EquivContent (a b : Image) : Prop :=
  a.width = b.width ∧ a.height = b.height ∧
    ∀ i j, i < a.width → j < a.height → a.pixel i j = b.pixel i j

/-- The `AspectRatioMode` enum of the source. -/
inductive AspectRatioMode where
  | LETTERBOX
  | CROP
deriving DecidableEq, Repr

/-- The `CropAnchor` enum of the source: the nine named anchors. -/
inductive CropAnchor where
  | CENTER
  | UPPER_LEFT
  | UPPER_CENTER
  | UPPER_RIGHT
  | CENTER_LEFT
  | CENTER_RIGHT
  | LOWER_LEFT
  | LOWER_CENTER
  | LOWER_RIGHT
deriving DecidableEq, Repr

/-- An arbitrary Python value passed as the `anchor` argument: either one of
the nine `CropAnchor` members, or any other value (carried as an opaque
string tag).  An `unknown` value compares unequal to every enum member, so in
the source it falls through every `elif` into the default branch. -/
inductive AnchorArg where
  | known (a : CropAnchor)
  | unknown (tag : String)
deriving DecidableEq, Repr

/-- Embedding of `calculate_crop_position` (change_aspect_ratio.py,
lines 77-128).  Python `//` is floor division, `Int.fdiv`.  The final
`return max(0, x), max(0, y)` is the componentwise clamp.  The function body
contains no failing operation, so the embedding is a total function: the
source never raises. -/
def calculate_crop_position (original_width original_height : Int)
    (target_width target_height : Int) (anchor : AnchorArg) : Int × Int :=
  let p : Int × Int :=
    if anchor = AnchorArg.known CropAnchor.CENTER then
      ((original_width - target_width).fdiv 2,
        (original_height - target_height).fdiv 2)
    else if anchor = AnchorArg.known CropAnchor.UPPER_LEFT then
      (0, 0)
    else if anchor = AnchorArg.known CropAnchor.UPPER_CENTER then
      ((original_width - target_width).fdiv 2, 0)
    else if anchor = AnchorArg.known CropAnchor.UPPER_RIGHT then
      (original_width - target_width, 0)
    else if anchor = AnchorArg.known CropAnchor.CENTER_LEFT then
      (0, (original_height - target_height).fdiv 2)
    else if anchor = AnchorArg.known CropAnchor.CENTER_RIGHT then
      (original_width - target_width,
        (original_height - target_height).fdiv 2)
    else if anchor = AnchorArg.known CropAnchor.LOWER_LEFT then
      (0, original_height - target_height)
    else if anchor = AnchorArg.known CropAnchor.LOWER_CENTER then
      ((original_width - target_width).fdiv 2,
        original_height - target_height)
    else if anchor = AnchorArg.known CropAnchor.LOWER_RIGHT then
      (original_width - target_width, original_height - target_height)
    else
      ((original_width - target_width).fdiv 2,
        (original_height - target_height).fdiv 2)
  (max 0 p.1, max 0 p.2)

/-- Modelled from the spec: the per-anchor table of section 4.1, with
`dx = sourceRect.width - targetRect.width`,
`dy = sourceRect.height - targetRect.height`, division by 2 as integer
division truncating toward zero (`Int.tdiv`), and the result clamped
componentwise to `max 0`.  Written from the spec's words, to be compared
with `calculate_crop_position` above. -/
def anchor_table_resolve (sw sh tw th : Int) (anchor : CropAnchor) : Int × Int :=
  let dx := sw - tw
  let dy := sh - th
  let p : Int × Int :=
    match anchor with
    | CropAnchor.CENTER => (dx.tdiv 2, dy.tdiv 2)
    | CropAnchor.UPPER_LEFT => (0, 0)
    | CropAnchor.UPPER_CENTER => (dx.tdiv 2, 0)
    | CropAnchor.UPPER_RIGHT => (dx, 0)
    | CropAnchor.CENTER_LEFT => (0, dy.tdiv 2)
    | CropAnchor.CENTER_RIGHT => (dx, dy.tdiv 2)
    | CropAnchor.LOWER_LEFT => (0, dy)
    | CropAnchor.LOWER_CENTER => (dx.tdiv 2, dy)
    | CropAnchor.LOWER_RIGHT => (dx, dy)
  (max 0 p.1, max 0 p.2)

/-- After clamping to `max 0`, floor division by two and truncating division
by two agree: they coincide on non-negative arguments and are both clamped
to `0` on negative ones. -/
theorem max_zero_fdiv_two_eq_tdiv_two (d : Int) :
    max 0 (d.fdiv 2) = max 0 (d.tdiv 2) := by
  rcases le_or_lt 0 d with h | h
  · rw [Int.fdiv_eq_ediv _ (by norm_num), Int.tdiv_eq_ediv h (by norm_num)]
  · have hf : d.fdiv 2 ≤ 0 := by
      rw [Int.fdiv_eq_ediv _ (by norm_num)]
      omega
    have ht : d.tdiv 2 ≤ 0 := by
      have hd : d = -(-d) := by ring
      rw [hd, Int.neg_tdiv]
      have : 0 ≤ (-d).tdiv 2 := Int.tdiv_nonneg (by omega) (by norm_num)
      omega
    rw [max_eq_left hf, max_eq_left ht]

/-- Floor division by the positive literal two agrees with Euclidean
division, the `/` of `Int`. -/
theorem fdiv_two_eq_ediv (d : Int) : d.fdiv 2 = d / 2 :=
  Int.fdiv_eq_ediv d (by norm_num)

/-- Fuel-based helper for the bit length of a natural number: `bitLenAux fuel n` counts halvings of `n` down to 1, provided `fuel` bounds the value.  Fuel recursion keeps the function kernel-computable on large literals. -/
def bitLenAux : Nat → Nat → Nat
  | 0, _ => 0
  | fuel+1, n => if n ≤ 1 then 0 else 1 + bitLenAux fuel (n / 2)

/-- Bit length: `bitLen n` is the exponent `L` with `2 ^ L <= n < 2 ^ (L + 1)` for positive `n` (and `0` at `0`). -/
def bitLen (n : Nat) : Nat := bitLenAux n n

/-- Specification of the fuel-based helper: with enough fuel it brackets `n` between consecutive powers of two. -/
theorem bitLenAux_spec (fuel : Nat) : ∀ n, 1 ≤ n → n ≤ fuel →
    2 ^ bitLenAux fuel n ≤ n ∧ n < 2 ^ (bitLenAux fuel n + 1) := by
  induction fuel with
  | zero => intro n h1 h2; omega
  | succ fuel ih =>
      intro n h1 h2
      by_cases hn : n ≤ 1
      · have : n = 1 := by omega
        subst this
        simp [bitLenAux]
      · have hrec := ih (n / 2) (by omega) (by omega)
        simp only [bitLenAux, if_neg hn]
        constructor
        · have : 2 ^ (1 + bitLenAux fuel (n / 2)) = 2 * 2 ^ bitLenAux fuel (n / 2) := by
            rw [pow_add, pow_one]
          rw [this]
          omega
        · have : 2 ^ (1 + bitLenAux fuel (n / 2) + 1) = 2 * 2 ^ (bitLenAux fuel (n / 2) + 1) := by
            rw [pow_add, pow_add, pow_one, pow_add, pow_one]
            ring
          rw [this]
          omega

/-- Specification of `bitLen`: `2 ^ bitLen n <= n < 2 ^ (bitLen n + 1)` for positive `n`. -/
theorem bitLen_spec (n : Nat) (h : 1 ≤ n) :
    2 ^ bitLen n ≤ n ∧ n < 2 ^ (bitLen n + 1) :=
  bitLenAux_spec n n h le_rfl

/-- Model of a non-negative finite IEEE 754 binary64 value, as produced by the float arithmetic of the source: the value is `m * 2 ^ e`.  Normalized values keep `m` in `[2 ^ 52, 2 ^ 53)`; zero is `(0, 0)`.  All quantities the source computes are non-negative and far from overflow and underflow, so sign, infinities and subnormals need no modelling. -/
structure F64 where
  m : Nat
  e : Int
deriving DecidableEq, Repr

/-- Round-to-nearest, ties-to-even, on a quotient `q` with remainder `r` out of a half-divisor `half`: rounds up when the remainder exceeds the half point, or equals it with `q` odd.  This is the rounding mode of IEEE 754 binary64 arithmetic. -/
def roundBits (q r half : Nat) : Nat :=
  if half < r ∨ (r = half ∧ q % 2 = 1) then q + 1 else q

/-- Round a positive integer significand `m` (times `2 ^ e`) to 53 significant bits, to nearest with ties to even: short significands are shifted up to 53 bits, long ones are rounded at the cut, renormalizing when rounding overflows to `2 ^ 53`. -/
def round53 (m : Nat) (e : Int) : F64 :=
  if m = 0 then ⟨0, 0⟩
  else if bitLen m ≤ 52 then
    ⟨m * 2 ^ (52 - bitLen m), e - ((52 - bitLen m : Nat) : Int)⟩
  else
    let s := bitLen m - 52
    let n := roundBits (m / 2 ^ s) (m % 2 ^ s) (2 ^ (s - 1))
    if n = 2 ^ 53 then ⟨2 ^ 52, e + s + 1⟩ else ⟨n, e + s⟩

/-- Exact rational value of a modelled binary64 number. -/
def F64.toRat (a : F64) : ℚ := a.m * (2:ℚ) ^ a.e

/-- Splitting a rational power of two at a natural offset. -/
theorem qpow_add_nat (e : Int) (k : Nat) :
    (2:ℚ) ^ (e + (k : Int)) = (2:ℚ) ^ e * (2:ℚ) ^ (k : Nat) := by
  rw [zpow_add₀ (by norm_num : (2:ℚ) ≠ 0), zpow_natCast]

/-- Rounding moves the quotient up by at most one. -/
theorem roundBits_bounds (q r half : Nat) :
    q ≤ roundBits q r half ∧ roundBits q r half ≤ q + 1 := by
  unfold roundBits
  split <;> omega

/-- The rounded quotient differs from the exact ratio by at most half an ulp, stated multiplied through by the divisor `2 * half`. -/
theorem roundBits_err (q r half : Nat) (hr : r < 2 * half) :
    (roundBits q r half * (2 * half) ≤ q * (2 * half) + r + half) ∧
    (q * (2 * half) + r ≤ roundBits q r half * (2 * half) + half) := by
  unfold roundBits
  have hexp : (q + 1) * (2 * half) = q * (2 * half) + 2 * half := by ring
  split
  · rename_i h
    rw [hexp]
    omega
  · rename_i h
    push_neg at h
    have hrh : r ≤ half := h.1
    omega

/-- Rounding a nonzero significand yields a normalized one: `m` lands in `[2 ^ 52, 2 ^ 53)`. -/
theorem round53_wf (m : Nat) (e : Int) (hm : m ≠ 0) :
    2 ^ 52 ≤ (round53 m e).m ∧ (round53 m e).m < 2 ^ 53 := by
  obtain ⟨hL1, hL2⟩ := bitLen_spec m (by omega)
  simp only [round53, if_neg hm]
  by_cases hle : bitLen m ≤ 52
  · rw [if_pos hle]
    constructor
    · have h52 : 2 ^ 52 = 2 ^ bitLen m * 2 ^ (52 - bitLen m) := by
        rw [← pow_add]
        congr 1
        omega
      rw [h52]
      exact Nat.mul_le_mul_right _ hL1
    · have h53 : (2:Nat) ^ 53 = 2 ^ (bitLen m + 1) * 2 ^ (52 - bitLen m) := by
        rw [← pow_add]
        congr 1
        omega
      rw [h53]
      exact Nat.mul_lt_mul_of_lt_of_le hL2 (le_refl _) (by positivity)
  · rw [if_neg hle]
    have hs1 : 1 ≤ bitLen m - 52 := by omega
    have hqlo : 2 ^ 52 ≤ m / 2 ^ (bitLen m - 52) := by
      rw [Nat.le_div_iff_mul_le (by positivity), ← pow_add]
      have h : 52 + (bitLen m - 52) = bitLen m := by omega
      rw [h]
      exact hL1
    have hqhi : m / 2 ^ (bitLen m - 52) < 2 ^ 53 := by
      rw [Nat.div_lt_iff_lt_mul (by positivity), ← pow_add]
      have h : 53 + (bitLen m - 52) = bitLen m + 1 := by omega
      rw [h]
      exact hL2
    obtain ⟨hn1, hn2⟩ := roundBits_bounds (m / 2 ^ (bitLen m - 52))
      (m % 2 ^ (bitLen m - 52)) (2 ^ (bitLen m - 52 - 1))
    by_cases h53 : roundBits (m / 2 ^ (bitLen m - 52)) (m % 2 ^ (bitLen m - 52))
        (2 ^ (bitLen m - 52 - 1)) = 2 ^ 53
    · rw [if_pos h53]
      norm_num
    · rw [if_neg h53]
      constructor <;> simp only [] <;> omega

/-- Value of a significand shifted up by `k` bits. -/
theorem val_shift (N : Nat) (e : Int) (k : Nat) :
    (N : ℚ) * (2:ℚ) ^ (e + (k : Int)) = ((N * 2 ^ k : Nat) : ℚ) * (2:ℚ) ^ e := by
  push_cast
  rw [qpow_add_nat]
  ring

/-- Value of a significand shifted up by `k` bits against an exponent lowered by `k`. -/
theorem val_shift_neg (N : Nat) (e : Int) (k : Nat) :
    ((N * 2 ^ k : Nat) : ℚ) * (2:ℚ) ^ (e - (k : Int)) = (N : ℚ) * (2:ℚ) ^ e := by
  push_cast
  have h : (2:ℚ) ^ (k : Nat) * (2:ℚ) ^ (e - (k : Int)) = (2:ℚ) ^ e := by
    rw [← zpow_natCast (2:ℚ) k, ← zpow_add₀ (by norm_num : (2:ℚ) ≠ 0)]
    congr 1
    ring
  calc (N : ℚ) * (2:ℚ) ^ (k:Nat) * (2:ℚ) ^ (e - (k : Int))
      = (N : ℚ) * ((2:ℚ) ^ (k:Nat) * (2:ℚ) ^ (e - (k : Int))) := by ring
  _ = (N : ℚ) * (2:ℚ) ^ e := by rw [h]

/-- Error bound for `round53`: the result is some `N * 2 ^ e` with `N * 2 ^ 53` within `m` of `m * 2 ^ 53`, i.e. relative error at most `2 ^ -53` — half an ulp on a normalized significand. -/
theorem round53_toRat (m : Nat) (e : Int) :
    ∃ N : Nat, (round53 m e).toRat = (N : ℚ) * (2:ℚ) ^ e ∧
      m * (2 ^ 53 - 1) ≤ N * 2 ^ 53 ∧ N * 2 ^ 53 ≤ m * (2 ^ 53 + 1) := by
  by_cases hm : m = 0
  · subst hm
    exact ⟨0, by simp [round53, F64.toRat], by omega, by omega⟩
  obtain ⟨hL1, hL2⟩ := bitLen_spec m (by omega)
  simp only [round53, if_neg hm]
  by_cases hle : bitLen m ≤ 52
  · rw [if_pos hle]
    refine ⟨m, ?_, by omega, by omega⟩
    show ((m * 2 ^ (52 - bitLen m) : Nat) : ℚ) *
      (2:ℚ) ^ (e - ((52 - bitLen m : Nat) : Int)) = (m : ℚ) * (2:ℚ) ^ e
    exact val_shift_neg m e (52 - bitLen m)
  · rw [if_neg hle]
    have hs1 : 1 ≤ bitLen m - 52 := by omega
    have hr : m % 2 ^ (bitLen m - 52) < 2 ^ (bitLen m - 52) :=
      Nat.mod_lt _ (by positivity)
    have h2s : (2:Nat) ^ (bitLen m - 52) = 2 * 2 ^ (bitLen m - 52 - 1) := by
      rw [← pow_succ']
      congr 1
      omega
    obtain ⟨herr1, herr2⟩ := roundBits_err (m / 2 ^ (bitLen m - 52))
      (m % 2 ^ (bitLen m - 52)) (2 ^ (bitLen m - 52 - 1)) (by omega)
    rw [← h2s] at herr1 herr2
    have hm_eq : 2 ^ (bitLen m - 52) * (m / 2 ^ (bitLen m - 52)) +
        m % 2 ^ (bitLen m - 52) = m := Nat.div_add_mod m _
    have hcomm : m / 2 ^ (bitLen m - 52) * 2 ^ (bitLen m - 52) =
        2 ^ (bitLen m - 52) * (m / 2 ^ (bitLen m - 52)) := Nat.mul_comm _ _
    have hs52 : 2 ^ (bitLen m - 52 - 1) * 2 ^ 53 ≤ m := by
      have h : (2:Nat) ^ (bitLen m - 52 - 1) * 2 ^ 53 = 2 ^ bitLen m := by
        rw [← pow_add]
        congr 1
        omega
      rw [h]
      exact hL1
    set n := roundBits (m / 2 ^ (bitLen m - 52)) (m % 2 ^ (bitLen m - 52))
      (2 ^ (bitLen m - 52 - 1)) with hn
    have hA : m ≤ n * 2 ^ (bitLen m - 52) + 2 ^ (bitLen m - 52 - 1) := by omega
    have hB : n * 2 ^ (bitLen m - 52) ≤ m + 2 ^ (bitLen m - 52 - 1) := by omega
    by_cases h53 : n = 2 ^ 53
    · rw [if_pos h53]
      refine ⟨n * 2 ^ (bitLen m - 52), ?_, by omega, by omega⟩
      show ((2:Nat) ^ 52 : ℚ) * (2:ℚ) ^ (e + ((bitLen m - 52 : Nat) : Int) + 1) =
        ((n * 2 ^ (bitLen m - 52) : Nat) : ℚ) * (2:ℚ) ^ e
      rw [h53]
      have hexp : e + ((bitLen m - 52 : Nat) : Int) + 1 =
          e + (((bitLen m - 52 : Nat) + 1 : Nat) : Int) := by push_cast; ring
      rw [hexp, qpow_add_nat]
      push_cast
      rw [pow_succ]
      ring
    · rw [if_neg h53]
      exact ⟨n * 2 ^ (bitLen m - 52),
        val_shift n e (bitLen m - 52), by omega, by omega⟩

/-- Conversion of a Python `int` to binary64, as in `float(n)` or the implicit conversions of `/` and `*`: exact below `2 ^ 53`, rounded to nearest with ties to even above. -/
def natToF64 (n : Nat) : F64 := round53 n 0

/-- Binary64 multiplication, correctly rounded: the exact product of significands, rounded to 53 bits. -/
def mul64 (a b : F64) : F64 := round53 (a.m * b.m) (a.e + b.e)

/-- Binary64 division, correctly rounded: the quotient is computed to 56 extra bits with a sticky bit recording a nonzero remainder (enough to decide every tie and half-point), then rounded to 53 bits.  Division by zero is irrelevant to the claims and maps to zero. -/
def div64 (a b : F64) : F64 :=
  if b.m = 0 then ⟨0, 0⟩
  else
    round53 (2 * (a.m * 2 ^ 55 / b.m) +
      (if a.m * 2 ^ 55 % b.m = 0 then 0 else 1)) (a.e - b.e - 56)

/-- Binary64 comparison `a < b`, by aligning exponents over the integers. -/
def ltF64 (a b : F64) : Bool :=
  if a.e ≤ b.e then decide (a.m < b.m * 2 ^ (b.e - a.e).toNat)
  else decide (a.m * 2 ^ (a.e - b.e).toNat < b.m)

/-- Truncation of a non-negative binary64 value to a Python `int`, as in `int(x)`: the integer part. -/
def truncF64 (a : F64) : Nat :=
  if 0 ≤ a.e then a.m * 2 ^ a.e.toNat else a.m / 2 ^ (-a.e).toNat

/-- Modelled binary64 values are non-negative. -/
theorem toRat_nonneg (a : F64) : 0 ≤ a.toRat := by
  unfold F64.toRat
  positivity

/-- Conversion of a natural number below `2 ^ 53` to binary64 is exact. -/
theorem natToF64_toRat (n : Nat) (h : n < 2 ^ 53) : (natToF64 n).toRat = n := by
  by_cases hn : n = 0
  · subst hn
    simp [natToF64, round53, F64.toRat]
  obtain ⟨hL1, hL2⟩ := bitLen_spec n (by omega)
  have hle : bitLen n ≤ 52 := by
    by_contra hc
    have : (2:Nat) ^ 53 ≤ 2 ^ bitLen n := Nat.pow_le_pow_right (by norm_num) (by omega)
    omega
  simp only [natToF64, round53, if_neg hn, if_pos hle]
  have := val_shift_neg n 0 (52 - bitLen n)
  unfold F64.toRat
  simp only []
  rw [this]
  simp

/-- Conversion of a positive natural number yields a normalized significand. -/
theorem natToF64_wf (n : Nat) (h : 0 < n) :
    2 ^ 52 ≤ (natToF64 n).m ∧ (natToF64 n).m < 2 ^ 53 :=
  round53_wf n 0 (by omega)

/-- Relative error bound for binary64 multiplication, stated multiplied through by `2 ^ 53`. -/
theorem mul64_bounds (a b : F64) :
    (mul64 a b).toRat * 2 ^ 53 ≤ a.toRat * b.toRat * (2 ^ 53 + 1) ∧
    a.toRat * b.toRat * (2 ^ 53 - 1) ≤ (mul64 a b).toRat * 2 ^ 53 := by
  obtain ⟨N, hval, h1, h2⟩ := round53_toRat (a.m * b.m) (a.e + b.e)
  have hab : a.toRat * b.toRat = ((a.m * b.m : Nat) : ℚ) * (2:ℚ) ^ (a.e + b.e) := by
    unfold F64.toRat
    push_cast
    rw [zpow_add₀ (by norm_num : (2:ℚ) ≠ 0)]
    ring
  have hpos : (0:ℚ) < (2:ℚ) ^ (a.e + b.e) := by positivity
  have key : ∀ X Y : Nat, X ≤ Y →
      ((X:ℚ)) * (2:ℚ) ^ (a.e + b.e) ≤ ((Y:ℚ)) * (2:ℚ) ^ (a.e + b.e) :=
    fun X Y h => mul_le_mul_of_nonneg_right (by exact_mod_cast h) hpos.le
  simp only [mul64]
  constructor
  · calc (round53 (a.m * b.m) (a.e + b.e)).toRat * 2 ^ 53
        = ((N * 2 ^ 53 : Nat) : ℚ) * (2:ℚ) ^ (a.e + b.e) := by
          rw [hval]
          push_cast
          ring
    _ ≤ ((a.m * b.m * (2 ^ 53 + 1) : Nat) : ℚ) * (2:ℚ) ^ (a.e + b.e) :=
        key _ _ h2
    _ = a.toRat * b.toRat * (2 ^ 53 + 1) := by
        rw [hab]
        push_cast
        ring
  · calc a.toRat * b.toRat * (2 ^ 53 - 1)
        = ((a.m * b.m * (2 ^ 53 - 1) : Nat) : ℚ) * (2:ℚ) ^ (a.e + b.e) := by
          rw [hab]
          push_cast
          ring
    _ ≤ ((N * 2 ^ 53 : Nat) : ℚ) * (2:ℚ) ^ (a.e + b.e) := key _ _ h1
    _ = (round53 (a.m * b.m) (a.e + b.e)).toRat * 2 ^ 53 := by
        rw [hval]
        push_cast
        ring

/-- Normalization of the product of a quotient significand at exponent `ae - be - 56` with the divisor value, against `2 ^ 109`. -/
theorem f64_prod_norm (N bm : Nat) (ae be : Int) :
    ((N:ℚ) * (2:ℚ) ^ (ae - be - 56)) * ((bm:ℚ) * (2:ℚ) ^ be) * (2 ^ 109 : ℚ) =
    ((N * bm * 2 ^ 53 : Nat) : ℚ) * (2:ℚ) ^ ae := by
  have h109 : (2:ℚ) ^ (109 : Nat) = (2:ℚ) ^ ((109 : Int)) := (zpow_natCast 2 109).symm
  have h53 : (2:ℚ) ^ (53 : Nat) = (2:ℚ) ^ ((53 : Int)) := (zpow_natCast 2 53).symm
  have hcomb : (2:ℚ) ^ (ae - be - 56) * (2:ℚ) ^ be * (2:ℚ) ^ ((109:Int)) =
      (2:ℚ) ^ ae * (2:ℚ) ^ ((53:Int)) := by
    rw [← zpow_add₀ (by norm_num : (2:ℚ) ≠ 0),
      ← zpow_add₀ (by norm_num : (2:ℚ) ≠ 0),
      ← zpow_add₀ (by norm_num : (2:ℚ) ≠ 0)]
    congr 1
    ring
  rw [Nat.cast_mul, Nat.cast_mul, Nat.cast_pow, Nat.cast_ofNat, h109, h53]
  calc (N:ℚ) * (2:ℚ) ^ (ae - be - 56) * ((bm:ℚ) * (2:ℚ) ^ be) * (2:ℚ) ^ ((109:Int))
      = (N:ℚ) * (bm:ℚ) *
        ((2:ℚ) ^ (ae - be - 56) * (2:ℚ) ^ be * (2:ℚ) ^ ((109:Int))) := by ring
  _ = (N:ℚ) * (bm:ℚ) * ((2:ℚ) ^ ae * (2:ℚ) ^ ((53:Int))) := by rw [hcomb]
  _ = (N:ℚ) * (bm:ℚ) * (2:ℚ) ^ ((53:Int)) * (2:ℚ) ^ ae := by ring

/-- Relative error bound for binary64 division of normalized values, stated multiplied through by `2 ^ 109`: the quotient times the divisor is within a factor `(1 ± 2 ^ -52)`-ish of the dividend, with explicit integer constants. -/
theorem div64_bounds (a b : F64)
    (ha : 2 ^ 52 ≤ a.m) (hb1 : 2 ^ 52 ≤ b.m) (hb2 : b.m < 2 ^ 53) :
    (div64 a b).toRat * b.toRat * 2 ^ 109 ≤
      a.toRat * ((2 ^ 56 + 2) * (2 ^ 53 + 1)) ∧
    a.toRat * ((2 ^ 56 - 2) * (2 ^ 53 - 1)) ≤
      (div64 a b).toRat * b.toRat * 2 ^ 109 := by
  have hb0 : b.m ≠ 0 := by positivity
  simp only [div64, if_neg hb0]
  obtain ⟨N, hval, h1, h2⟩ := round53_toRat
    (2 * (a.m * 2 ^ 55 / b.m) + (if a.m * 2 ^ 55 % b.m = 0 then 0 else 1))
    (a.e - b.e - 56)
  have hqr : b.m * (a.m * 2 ^ 55 / b.m) + a.m * 2 ^ 55 % b.m = a.m * 2 ^ 55 :=
    Nat.div_add_mod _ _
  have hrlt : a.m * 2 ^ 55 % b.m < b.m := Nat.mod_lt _ (by omega)
  set q := a.m * 2 ^ 55 / b.m with hq
  set r := a.m * 2 ^ 55 % b.m with hr
  set A := 2 * q + (if r = 0 then 0 else 1) with hA
  have hAexpand : A * b.m = 2 * (b.m * q) + (if r = 0 then 0 else 1) * b.m := by
    rw [hA]
    ring
  have hAup : A * b.m ≤ 2 * (a.m * 2 ^ 55) + b.m := by
    rw [hAexpand]
    by_cases hr0 : r = 0 <;> simp [hr0] <;> omega
  have hAlo : 2 * (a.m * 2 ^ 55) ≤ A * b.m + b.m := by
    rw [hAexpand]
    by_cases hr0 : r = 0 <;> simp [hr0] <;> omega
  have hbm2am : b.m ≤ 2 * a.m := by omega
  -- Nat-level upper bound
  have hNatUp : N * b.m * 2 ^ 53 ≤ a.m * ((2 ^ 56 + 2) * (2 ^ 53 + 1)) := by
    have s1 : N * 2 ^ 53 * b.m ≤ A * (2 ^ 53 + 1) * b.m :=
      Nat.mul_le_mul_right _ h2
    have s2 : A * (2 ^ 53 + 1) * b.m = A * b.m * (2 ^ 53 + 1) := by ring
    have s3 : A * b.m * (2 ^ 53 + 1) ≤ (2 * (a.m * 2 ^ 55) + b.m) * (2 ^ 53 + 1) :=
      Nat.mul_le_mul_right _ hAup
    have s4 : (2 * (a.m * 2 ^ 55) + b.m) * (2 ^ 53 + 1) ≤
        (2 * (a.m * 2 ^ 55) + 2 * a.m) * (2 ^ 53 + 1) :=
      Nat.mul_le_mul_right _ (by omega)
    have s5 : (2 * (a.m * 2 ^ 55) + 2 * a.m) * (2 ^ 53 + 1) =
        a.m * ((2 ^ 56 + 2) * (2 ^ 53 + 1)) := by ring
    calc N * b.m * 2 ^ 53 = N * 2 ^ 53 * b.m := by ring
    _ ≤ A * (2 ^ 53 + 1) * b.m := s1
    _ = A * b.m * (2 ^ 53 + 1) := s2
    _ ≤ (2 * (a.m * 2 ^ 55) + b.m) * (2 ^ 53 + 1) := s3
    _ ≤ (2 * (a.m * 2 ^ 55) + 2 * a.m) * (2 ^ 53 + 1) := s4
    _ = a.m * ((2 ^ 56 + 2) * (2 ^ 53 + 1)) := s5
  -- Nat-level lower bound
  have hNatLo : a.m * ((2 ^ 56 - 2) * (2 ^ 53 - 1)) ≤ N * b.m * 2 ^ 53 := by
    have t1 : 2 * (a.m * 2 ^ 55) * (2 ^ 53 - 1) ≤ (A * b.m + b.m) * (2 ^ 53 - 1) :=
      Nat.mul_le_mul_right _ hAlo
    have t2 : (A * b.m + b.m) * (2 ^ 53 - 1) =
        A * (2 ^ 53 - 1) * b.m + b.m * (2 ^ 53 - 1) := by ring
    have t3 : A * (2 ^ 53 - 1) * b.m ≤ N * 2 ^ 53 * b.m :=
      Nat.mul_le_mul_right _ h1
    have t4 : b.m * (2 ^ 53 - 1) ≤ 2 * a.m * (2 ^ 53 - 1) :=
      Nat.mul_le_mul_right _ hbm2am
    have t5 : 2 * (a.m * 2 ^ 55) * (2 ^ 53 - 1) = a.m * (2 ^ 56 * (2 ^ 53 - 1)) := by
      ring
    have t6 : N * 2 ^ 53 * b.m = N * b.m * 2 ^ 53 := by ring
    have hcoeff : a.m * ((2 ^ 56 - 2) * (2 ^ 53 - 1)) + 2 * a.m * (2 ^ 53 - 1) =
        a.m * (2 ^ 56 * (2 ^ 53 - 1)) := by
      have : ((2:Nat) ^ 56 - 2) * (2 ^ 53 - 1) + 2 * (2 ^ 53 - 1) =
          2 ^ 56 * (2 ^ 53 - 1) := by norm_num
      calc a.m * ((2 ^ 56 - 2) * (2 ^ 53 - 1)) + 2 * a.m * (2 ^ 53 - 1)
          = a.m * (((2 ^ 56 - 2) * (2 ^ 53 - 1)) + 2 * (2 ^ 53 - 1)) := by ring
      _ = a.m * (2 ^ 56 * (2 ^ 53 - 1)) := by rw [this]
    omega
  -- lift to ℚ
  have hbrat : b.toRat = (b.m : ℚ) * (2:ℚ) ^ b.e := rfl
  have harat : a.toRat = (a.m : ℚ) * (2:ℚ) ^ a.e := rfl
  have hposa : (0:ℚ) < (2:ℚ) ^ a.e := by positivity
  have hprod : (round53 A (a.e - b.e - 56)).toRat * b.toRat * 2 ^ 109 =
      ((N * b.m * 2 ^ 53 : Nat) : ℚ) * (2:ℚ) ^ a.e := by
    rw [hval, hbrat]
    exact f64_prod_norm N b.m a.e b.e
  constructor
  · rw [hprod, harat]
    calc ((N * b.m * 2 ^ 53 : Nat) : ℚ) * (2:ℚ) ^ a.e
        ≤ ((a.m * ((2 ^ 56 + 2) * (2 ^ 53 + 1)) : Nat) : ℚ) * (2:ℚ) ^ a.e :=
          mul_le_mul_of_nonneg_right (by exact_mod_cast hNatUp) hposa.le
    _ = (a.m : ℚ) * (2:ℚ) ^ a.e * ((2 ^ 56 + 2) * (2 ^ 53 + 1)) := by
          push_cast
          ring
  · rw [hprod, harat]
    calc (a.m : ℚ) * (2:ℚ) ^ a.e * ((2 ^ 56 - 2) * (2 ^ 53 - 1))
        = ((a.m * ((2 ^ 56 - 2) * (2 ^ 53 - 1)) : Nat) : ℚ) * (2:ℚ) ^ a.e := by
          push_cast
          ring
    _ ≤ ((N * b.m * 2 ^ 53 : Nat) : ℚ) * (2:ℚ) ^ a.e :=
          mul_le_mul_of_nonneg_right (by exact_mod_cast hNatLo) hposa.le

/-- Comparison of two significand-exponent values with the smaller exponent on the left, as an integer comparison. -/
theorem val_lt_iff (am bm : Nat) (ae be : Int) (h : ae ≤ be) :
    ((am:ℚ) * (2:ℚ) ^ ae < (bm:ℚ) * (2:ℚ) ^ be) ↔
      am < bm * 2 ^ (be - ae).toNat := by
  have hrepr : (bm:ℚ) * (2:ℚ) ^ be =
      ((bm * 2 ^ (be - ae).toNat : Nat) : ℚ) * (2:ℚ) ^ ae := by
    have hk : be = ae + (((be - ae).toNat : Nat) : Int) := by
      rw [Int.toNat_of_nonneg (by omega)]
      ring
    conv_lhs => rw [hk, qpow_add_nat]
    push_cast
    ring
  rw [hrepr, mul_lt_mul_right (by positivity : (0:ℚ) < (2:ℚ) ^ ae)]
  exact_mod_cast Iff.rfl

/-- The binary64 comparison decides the order of the exact values. -/
theorem ltF64_iff (a b : F64) : ltF64 a b = true ↔ a.toRat < b.toRat := by
  unfold ltF64 F64.toRat
  by_cases h : a.e ≤ b.e
  · rw [if_pos h]
    simp only [decide_eq_true_eq]
    exact (val_lt_iff a.m b.m a.e b.e h).symm
  · rw [if_neg h]
    simp only [decide_eq_true_eq]
    have h2 : b.e ≤ a.e := by omega
    constructor
    · intro hlt
      have hrepr : (a.m:ℚ) * (2:ℚ) ^ a.e =
          ((a.m * 2 ^ (a.e - b.e).toNat : Nat) : ℚ) * (2:ℚ) ^ b.e := by
        have hk : a.e = b.e + (((a.e - b.e).toNat : Nat) : Int) := by
          rw [Int.toNat_of_nonneg (by omega)]
          ring
        conv_lhs => rw [hk, qpow_add_nat]
        push_cast
        ring
      rw [hrepr, mul_lt_mul_right (by positivity : (0:ℚ) < (2:ℚ) ^ b.e)]
      exact_mod_cast hlt
    · intro hlt
      have hrepr : (a.m:ℚ) * (2:ℚ) ^ a.e =
          ((a.m * 2 ^ (a.e - b.e).toNat : Nat) : ℚ) * (2:ℚ) ^ b.e := by
        have hk : a.e = b.e + (((a.e - b.e).toNat : Nat) : Int) := by
          rw [Int.toNat_of_nonneg (by omega)]
          ring
        conv_lhs => rw [hk, qpow_add_nat]
        push_cast
        ring
      rw [hrepr, mul_lt_mul_right (by positivity : (0:ℚ) < (2:ℚ) ^ b.e)] at hlt
      exact_mod_cast hlt

/-- Truncation brackets the value: `trunc a <= a < trunc a + 1`. -/
theorem truncF64_bounds (a : F64) :
    ((truncF64 a : Nat) : ℚ) ≤ a.toRat ∧ a.toRat < (truncF64 a : ℚ) + 1 := by
  unfold truncF64 F64.toRat
  by_cases h : 0 ≤ a.e
  · rw [if_pos h]
    have hval : (a.m : ℚ) * (2:ℚ) ^ a.e = ((a.m * 2 ^ a.e.toNat : Nat) : ℚ) := by
      have hk : a.e = (0:Int) + ((a.e.toNat : Nat) : Int) := by
        rw [Int.toNat_of_nonneg h]
        ring
      conv_lhs => rw [hk, qpow_add_nat]
      rw [zpow_zero]
      push_cast
      ring
    rw [hval]
    constructor
    · exact le_refl _
    · exact lt_add_one _
  · rw [if_neg h]
    have hk : a.e = -(((-a.e).toNat : Nat) : Int) := by
      rw [Int.toNat_of_nonneg (by omega)]
      ring
    have hpow : (2:ℚ) ^ a.e = ((2 ^ (-a.e).toNat : Nat) : ℚ)⁻¹ := by
      conv_lhs => rw [hk]
      rw [zpow_neg]
      congr 1
      rw [zpow_natCast]
      push_cast
      ring
    have hppos : (0:ℚ) < ((2 ^ (-a.e).toNat : Nat) : ℚ) := by positivity
    have hdm := Nat.div_add_mod a.m (2 ^ (-a.e).toNat)
    have hmod : a.m % 2 ^ (-a.e).toNat < 2 ^ (-a.e).toNat :=
      Nat.mod_lt _ (by positivity)
    rw [hpow, ← div_eq_mul_inv]
    constructor
    · rw [le_div_iff₀ hppos]
      exact_mod_cast Nat.div_mul_le_self a.m _
    · rw [div_lt_iff₀ hppos]
      have hexp : (a.m / 2 ^ (-a.e).toNat + 1) * 2 ^ (-a.e).toNat =
          2 ^ (-a.e).toNat * (a.m / 2 ^ (-a.e).toNat) + 2 ^ (-a.e).toNat := by
        ring
      have hnat : a.m < (a.m / 2 ^ (-a.e).toNat + 1) * 2 ^ (-a.e).toNat := by
        omega
      exact_mod_cast hnat

/-- Division of normalized values yields a normalized significand. -/
theorem div64_wf (a b : F64) (ha : 2 ^ 52 ≤ a.m) (hb1 : 2 ^ 52 ≤ b.m)
    (hb2 : b.m < 2 ^ 53) :
    2 ^ 52 ≤ (div64 a b).m ∧ (div64 a b).m < 2 ^ 53 := by
  have hb0 : b.m ≠ 0 := by positivity
  simp only [div64, if_neg hb0]
  apply round53_wf
  have hq : 1 ≤ a.m * 2 ^ 55 / b.m := by
    rw [Nat.le_div_iff_mul_le (by omega)]
    have hbig : 2 ^ 52 * 2 ^ 55 ≤ a.m * 2 ^ 55 := Nat.mul_le_mul_right _ ha
    omega
  omega

/-- A value below `d + 1` truncates to at most `d`. -/
theorem truncF64_le_of_lt (a : F64) (d : Nat) (h : a.toRat < (d:ℚ) + 1) :
    truncF64 a ≤ d := by
  have h1 := (truncF64_bounds a).1
  have h2 : ((truncF64 a : Nat) : ℚ) < (d:ℚ) + 1 := lt_of_le_of_lt h1 h
  have h3 : truncF64 a < d + 1 := by exact_mod_cast h2
  omega

/-- Size bound through a rounded division: if the exact inequality `c <= x * d` holds with margin covering the rounding errors, then `int(float(c) / x)` is at most `d`.  The margin constants come from `div64_bounds`; `d <= 2 ^ 40` keeps the accumulated error below one unit. -/
theorem key1 (c d : Nat) (x : F64) (hc : 0 < c) (hc53 : c < 2 ^ 53)
    (hd : 0 < d) (hd40 : d ≤ 2 ^ 40) (hx1 : 2 ^ 52 ≤ x.m) (hx2 : x.m < 2 ^ 53)
    (hlow : (c:ℚ) * ((2 ^ 56 - 2) * (2 ^ 53 - 1)) ≤ x.toRat * d * 2 ^ 109) :
    truncF64 (div64 (natToF64 c) x) ≤ d := by
  obtain ⟨hn1, hn2⟩ := natToF64_wf c hc
  have hvalc : (natToF64 c).toRat = c := natToF64_toRat c hc53
  obtain ⟨hup, hlo⟩ := div64_bounds (natToF64 c) x hn1 hx1 hx2
  rw [hvalc] at hup hlo
  apply truncF64_le_of_lt
  by_contra hcon
  push_neg at hcon
  have hdQ : (0:ℚ) < (d:ℚ) := by exact_mod_cast hd
  have hcQ : (0:ℚ) < (c:ℚ) := by exact_mod_cast hc
  have step1 : ((d:ℚ) + 1) * x.toRat * 2 ^ 109 ≤
      (c:ℚ) * ((2 ^ 56 + 2) * (2 ^ 53 + 1)) := by
    have s := mul_le_mul_of_nonneg_right
      (mul_le_mul_of_nonneg_right hcon (toRat_nonneg x))
      (by positivity : (0:ℚ) ≤ 2 ^ 109)
    exact le_trans s hup
  have final : (c:ℚ) * (((d:ℚ) + 1) * ((2 ^ 56 - 2) * (2 ^ 53 - 1))) ≤
      (c:ℚ) * ((d:ℚ) * ((2 ^ 56 + 2) * (2 ^ 53 + 1))) := by
    calc (c:ℚ) * (((d:ℚ) + 1) * ((2 ^ 56 - 2) * (2 ^ 53 - 1)))
        = ((d:ℚ) + 1) * ((c:ℚ) * ((2 ^ 56 - 2) * (2 ^ 53 - 1))) := by ring
    _ ≤ ((d:ℚ) + 1) * (x.toRat * d * 2 ^ 109) :=
        mul_le_mul_of_nonneg_left hlow (by positivity)
    _ = (d:ℚ) * (((d:ℚ) + 1) * x.toRat * 2 ^ 109) := by ring
    _ ≤ (d:ℚ) * ((c:ℚ) * ((2 ^ 56 + 2) * (2 ^ 53 + 1))) :=
        mul_le_mul_of_nonneg_left step1 hdQ.le
    _ = (c:ℚ) * ((d:ℚ) * ((2 ^ 56 + 2) * (2 ^ 53 + 1))) := by ring
  have final2 : ((d:ℚ) + 1) * ((2 ^ 56 - 2) * (2 ^ 53 - 1)) ≤
      (d:ℚ) * ((2 ^ 56 + 2) * (2 ^ 53 + 1)) := (mul_le_mul_left hcQ).mp final
  have hdle : (d:ℚ) ≤ 2 ^ 40 := by exact_mod_cast hd40
  nlinarith [final2, hdle]

/-- Size bound through a rounded multiplication: if `x * d <= c` holds with margin covering the rounding errors, then `int(float(d) * x)` is at most `c`. -/
theorem key2 (c d : Nat) (x : F64) (hc40 : c ≤ 2 ^ 40) (hd53 : d < 2 ^ 53)
    (hup : x.toRat * (d:ℚ) * 2 ^ 109 ≤ (c:ℚ) * ((2 ^ 56 + 2) * (2 ^ 53 + 1))) :
    truncF64 (mul64 (natToF64 d) x) ≤ c := by
  have hvald : (natToF64 d).toRat = d := natToF64_toRat d hd53
  obtain ⟨hmu, hml⟩ := mul64_bounds (natToF64 d) x
  rw [hvald] at hmu
  apply truncF64_le_of_lt
  by_contra hcon
  push_neg at hcon
  have s1 : ((c:ℚ) + 1) * 2 ^ 53 * 2 ^ 109 ≤
      (mul64 (natToF64 d) x).toRat * 2 ^ 53 * 2 ^ 109 := by
    have s := mul_le_mul_of_nonneg_right
      (mul_le_mul_of_nonneg_right hcon (by positivity : (0:ℚ) ≤ 2 ^ 53))
      (by positivity : (0:ℚ) ≤ 2 ^ 109)
    exact s
  have s2 : (mul64 (natToF64 d) x).toRat * 2 ^ 53 * 2 ^ 109 ≤
      ((d:ℚ) * x.toRat * (2 ^ 53 + 1)) * 2 ^ 109 :=
    mul_le_mul_of_nonneg_right hmu (by positivity)
  have s3 : ((d:ℚ) * x.toRat * (2 ^ 53 + 1)) * 2 ^ 109 =
      (x.toRat * (d:ℚ) * 2 ^ 109) * (2 ^ 53 + 1) := by ring
  have s4 : (x.toRat * (d:ℚ) * 2 ^ 109) * (2 ^ 53 + 1) ≤
      ((c:ℚ) * ((2 ^ 56 + 2) * (2 ^ 53 + 1))) * (2 ^ 53 + 1) :=
    mul_le_mul_of_nonneg_right hup (by norm_num)
  have hc40Q : (c:ℚ) ≤ 2 ^ 40 := by exact_mod_cast hc40
  nlinarith [s1, s2, s3 ▸ s4, hc40Q]

/-- Intermediate size chosen by the letterbox branch of `resize_with_aspect_ratio` (change_aspect_ratio.py, lines 153-166): the aspect ratios are Python floats (`target_width / target_height` and `original_width / original_height`, true division of ints), compared as floats, and `int(...)` truncates the float product or quotient.  All four arithmetic steps are modelled by correctly rounded binary64 operations. -/
def letterbox_size (original_width original_height : Nat)
    (target_width target_height : Nat) : Nat × Nat :=
  let target_aspect := div64 (natToF64 target_width) (natToF64 target_height)
  let original_aspect := div64 (natToF64 original_width) (natToF64 original_height)
  if ltF64 target_aspect original_aspect then
    (target_width, truncF64 (div64 (natToF64 target_width) original_aspect))
  else
    (truncF64 (mul64 (natToF64 target_height) original_aspect), target_height)

/-- Crop-window size chosen by the crop branch of `resize_with_aspect_ratio` (change_aspect_ratio.py, lines 189-198), with the same binary64 float arithmetic as the letterbox branch. -/
def crop_size (original_width original_height : Nat)
    (target_width target_height : Nat) : Nat × Nat :=
  let target_aspect := div64 (natToF64 target_width) (natToF64 target_height)
  let original_aspect := div64 (natToF64 original_width) (natToF64 original_height)
  if ltF64 target_aspect original_aspect then
    (truncF64 (mul64 (natToF64 original_height) target_aspect), original_height)
  else
    (original_width, truncF64 (div64 (natToF64 original_width) target_aspect))

/-- A bound by `2 ^ 40` is in particular a bound by `2 ^ 53`. -/
theorem le40_lt53 (n : Nat) (h : n ≤ 2 ^ 40) : n < 2 ^ 53 := by omega

/-- The letterbox intermediate size never exceeds the target rectangle, for dimensions up to `2 ^ 40`: the float rounding errors are too small to push the truncated size past the target. -/
theorem letterbox_size_le (ow oh tw th : Nat)
    (how : 0 < ow) (hoh : 0 < oh) (htw : 0 < tw) (hth : 0 < th)
    (b1 : ow ≤ 2 ^ 40) (b2 : oh ≤ 2 ^ 40) (b3 : tw ≤ 2 ^ 40) (b4 : th ≤ 2 ^ 40) :
    (letterbox_size ow oh tw th).1 ≤ tw ∧ (letterbox_size ow oh tw th).2 ≤ th := by
  obtain ⟨hw1, hw2⟩ := natToF64_wf ow how
  obtain ⟨hh1, hh2⟩ := natToF64_wf oh hoh
  obtain ⟨ht1, ht2⟩ := natToF64_wf tw htw
  obtain ⟨hs1, hs2⟩ := natToF64_wf th hth
  have hvow : (natToF64 ow).toRat = ow := natToF64_toRat ow (le40_lt53 ow b1)
  have hvoh : (natToF64 oh).toRat = oh := natToF64_toRat oh (le40_lt53 oh b2)
  have hvtw : (natToF64 tw).toRat = tw := natToF64_toRat tw (le40_lt53 tw b3)
  have hvth : (natToF64 th).toRat = th := natToF64_toRat th (le40_lt53 th b4)
  obtain ⟨hoaw1, hoaw2⟩ := div64_wf (natToF64 ow) (natToF64 oh) hw1 hh1 hh2
  obtain ⟨hoau, hoal⟩ := div64_bounds (natToF64 ow) (natToF64 oh) hw1 hh1 hh2
  obtain ⟨htau, htal⟩ := div64_bounds (natToF64 tw) (natToF64 th) ht1 hs1 hs2
  rw [hvow, hvoh] at hoau hoal
  rw [hvtw, hvth] at htau htal
  simp only [letterbox_size]
  by_cases hlt : ltF64 (div64 (natToF64 tw) (natToF64 th))
      (div64 (natToF64 ow) (natToF64 oh)) = true
  · rw [if_pos hlt]
    refine ⟨le_refl tw, ?_⟩
    have hltv := (ltF64_iff _ _).mp hlt
    apply key1 tw th _ htw (le40_lt53 tw b3) hth b4 hoaw1 hoaw2
    calc (tw:ℚ) * ((2 ^ 56 - 2) * (2 ^ 53 - 1))
        ≤ (div64 (natToF64 tw) (natToF64 th)).toRat * (th:ℚ) * 2 ^ 109 := htal
    _ ≤ (div64 (natToF64 ow) (natToF64 oh)).toRat * (th:ℚ) * 2 ^ 109 := by
        apply mul_le_mul_of_nonneg_right
          (mul_le_mul_of_nonneg_right hltv.le (by positivity))
          (by positivity)
  · rw [if_neg hlt]
    refine ⟨?_, le_refl th⟩
    have hge : (div64 (natToF64 ow) (natToF64 oh)).toRat ≤
        (div64 (natToF64 tw) (natToF64 th)).toRat := by
      have hiff := (ltF64_iff (div64 (natToF64 tw) (natToF64 th))
        (div64 (natToF64 ow) (natToF64 oh)))
      have hnot : ¬ ((div64 (natToF64 tw) (natToF64 th)).toRat <
          (div64 (natToF64 ow) (natToF64 oh)).toRat) := by
        intro hc
        exact hlt (hiff.mpr hc)
      exact le_of_not_lt hnot
    apply key2 tw th _ b3 (le40_lt53 th b4)
    calc (div64 (natToF64 ow) (natToF64 oh)).toRat * (th:ℚ) * 2 ^ 109
        ≤ (div64 (natToF64 tw) (natToF64 th)).toRat * (th:ℚ) * 2 ^ 109 := by
          apply mul_le_mul_of_nonneg_right
            (mul_le_mul_of_nonneg_right hge (by positivity))
            (by positivity)
    _ ≤ (tw:ℚ) * ((2 ^ 56 + 2) * (2 ^ 53 + 1)) := htau

/-- The crop window never exceeds the source rectangle, for dimensions up to `2 ^ 40`. -/
theorem crop_size_le (ow oh tw th : Nat)
    (how : 0 < ow) (hoh : 0 < oh) (htw : 0 < tw) (hth : 0 < th)
    (b1 : ow ≤ 2 ^ 40) (b2 : oh ≤ 2 ^ 40) (b3 : tw ≤ 2 ^ 40) (b4 : th ≤ 2 ^ 40) :
    (crop_size ow oh tw th).1 ≤ ow ∧ (crop_size ow oh tw th).2 ≤ oh := by
  obtain ⟨hw1, hw2⟩ := natToF64_wf ow how
  obtain ⟨hh1, hh2⟩ := natToF64_wf oh hoh
  obtain ⟨ht1, ht2⟩ := natToF64_wf tw htw
  obtain ⟨hs1, hs2⟩ := natToF64_wf th hth
  have hvow : (natToF64 ow).toRat = ow := natToF64_toRat ow (le40_lt53 ow b1)
  have hvoh : (natToF64 oh).toRat = oh := natToF64_toRat oh (le40_lt53 oh b2)
  have hvtw : (natToF64 tw).toRat = tw := natToF64_toRat tw (le40_lt53 tw b3)
  have hvth : (natToF64 th).toRat = th := natToF64_toRat th (le40_lt53 th b4)
  obtain ⟨htaw1, htaw2⟩ := div64_wf (natToF64 tw) (natToF64 th) ht1 hs1 hs2
  obtain ⟨hoau, hoal⟩ := div64_bounds (natToF64 ow) (natToF64 oh) hw1 hh1 hh2
  obtain ⟨htau, htal⟩ := div64_bounds (natToF64 tw) (natToF64 th) ht1 hs1 hs2
  rw [hvow, hvoh] at hoau hoal
  rw [hvtw, hvth] at htau htal
  simp only [crop_size]
  by_cases hlt : ltF64 (div64 (natToF64 tw) (natToF64 th))
      (div64 (natToF64 ow) (natToF64 oh)) = true
  · rw [if_pos hlt]
    refine ⟨?_, le_refl oh⟩
    have hltv := (ltF64_iff _ _).mp hlt
    apply key2 ow oh _ b1 (le40_lt53 oh b2)
    calc (div64 (natToF64 tw) (natToF64 th)).toRat * (oh:ℚ) * 2 ^ 109
        ≤ (div64 (natToF64 ow) (natToF64 oh)).toRat * (oh:ℚ) * 2 ^ 109 := by
          apply mul_le_mul_of_nonneg_right
            (mul_le_mul_of_nonneg_right hltv.le (by positivity))
            (by positivity)
    _ ≤ (ow:ℚ) * ((2 ^ 56 + 2) * (2 ^ 53 + 1)) := hoau
  · rw [if_neg hlt]
    refine ⟨le_refl ow, ?_⟩
    have hge : (div64 (natToF64 ow) (natToF64 oh)).toRat ≤
        (div64 (natToF64 tw) (natToF64 th)).toRat := by
      have hiff := (ltF64_iff (div64 (natToF64 tw) (natToF64 th))
        (div64 (natToF64 ow) (natToF64 oh)))
      have hnot : ¬ ((div64 (natToF64 tw) (natToF64 th)).toRat <
          (div64 (natToF64 ow) (natToF64 oh)).toRat) := by
        intro hc
        exact hlt (hiff.mpr hc)
      exact le_of_not_lt hnot
    apply key1 ow oh _ how (le40_lt53 ow b1) hoh b2 htaw1 htaw2
    calc (ow:ℚ) * ((2 ^ 56 - 2) * (2 ^ 53 - 1))
        ≤ (div64 (natToF64 ow) (natToF64 oh)).toRat * (oh:ℚ) * 2 ^ 109 := hoal
    _ ≤ (div64 (natToF64 tw) (natToF64 th)).toRat * (oh:ℚ) * 2 ^ 109 := by
        apply mul_le_mul_of_nonneg_right
          (mul_le_mul_of_nonneg_right hge (by positivity))
          (by positivity)

/-- Paste offset of the letterbox branch (change_aspect_ratio.py,
lines 181-182): `(target - new) // 2` in Python integers, i.e. `Int.fdiv`. -/
def letterbox_offset (original_width original_height : Nat)
    (target_width target_height : Nat) : Int × Int :=
  (((target_width : Int) -
      (letterbox_size original_width original_height target_width
        target_height).1).fdiv 2,
    ((target_height : Int) -
      (letterbox_size original_width original_height target_width
        target_height).2).fdiv 2)

/-- The letterbox paste offset, written with natural-number arithmetic:
because the intermediate size fits inside the target (for dimensions up to
`2 ^ 40`), `(target - new) // 2` is the non-negative `(target - new) / 2`. -/
theorem letterbox_offset_eq (ow oh tw th : Nat) (how : 0 < ow) (hoh : 0 < oh)
    (htw : 0 < tw) (hth : 0 < th) (b1 : ow ≤ 2 ^ 40) (b2 : oh ≤ 2 ^ 40)
    (b3 : tw ≤ 2 ^ 40) (b4 : th ≤ 2 ^ 40) :
    letterbox_offset ow oh tw th =
      ((((tw - (letterbox_size ow oh tw th).1) / 2 : Nat) : Int),
        (((th - (letterbox_size ow oh tw th).2) / 2 : Nat) : Int)) := by
  obtain ⟨h1, h2⟩ := letterbox_size_le ow oh tw th how hoh htw hth b1 b2 b3 b4
  simp only [letterbox_offset, fdiv_two_eq_ediv, Prod.mk.injEq]
  constructor <;> omega

/-- The canvas built by a successful letterbox branch
(change_aspect_ratio.py, lines 168-186): a `target_width` x `target_height`
canvas filled with `letterbox_color`, with the resized image written over the
slice `[y_offset : y_offset + new_height, x_offset : x_offset + new_width]`. -/
def letterbox_canvas (resizeFn : Image → Nat → Nat → Image) (image : Image)
    (target_width target_height : Nat) (letterbox_color : Color) : Image :=
  let nw := (letterbox_size image.width image.height target_width
    target_height).1
  let nh := (letterbox_size image.width image.height target_width
    target_height).2
  let resized := resizeFn image nw nh
  let x_offset := (letterbox_offset image.width image.height target_width
    target_height).1
  let y_offset := (letterbox_offset image.width image.height target_width
    target_height).2
  { width := target_width
    height := target_height
    pixel := fun i j =>
      if x_offset ≤ (i : Int) ∧ (i : Int) < x_offset + nw ∧
          y_offset ≤ (j : Int) ∧ (j : Int) < y_offset + nh then
        resized.pixel ((i : Int) - x_offset).toNat
          ((j : Int) - y_offset).toNat
      else letterbox_color }

/-- The sub-image taken by the crop branch (change_aspect_ratio.py,
lines 200-206): the numpy slice `image[y : y + ch, x : x + cw]`, which clips
at the image boundary — the `min` in the dimensions reproduces the clip. -/
def crop_window (image : Image) (target_width target_height : Nat)
    (anchor : AnchorArg) : Image :=
  let cw := (crop_size image.width image.height target_width target_height).1
  let ch := (crop_size image.width image.height target_width target_height).2
  let pos := calculate_crop_position (image.width : Int) (image.height : Int)
    (cw : Int) (ch : Int) anchor
  let x := pos.1.toNat
  let y := pos.2.toNat
  { width := min cw (image.width - x)
    height := min ch (image.height - y)
    pixel := fun i j => image.pixel (x + i) (y + j) }

/-- Embedding of `resize_with_aspect_ratio` (change_aspect_ratio.py,
lines 131-213).  The external `cv2.resize` is passed in as `resizeFn`.  The
failure paths of the source are explicit: the aspect-ratio computations
(lines 154-155) raise `ZeroDivisionError` when `target_height` or the image
height is zero; `cv2.resize` (lines 168-170 and 208-210) raises when its
source is empty or a requested dimension is zero; and the canvas slice
assignment (line 183) raises `ValueError` when the paste region does not lie
inside the canvas, since the shapes then fail to broadcast. -/
def resize_with_aspect_ratio (resizeFn : Image → Nat → Nat → Image)
    (image : Image) (target_width target_height : Nat)
    (mode : AspectRatioMode) (anchor : AnchorArg)
    (letterbox_color : Color) : Except String Image :=
  if target_height = 0 ∨ image.height = 0 then
    Except.error "ZeroDivisionError: division by zero"
  else
    match mode with
    | AspectRatioMode.LETTERBOX =>
        let nw := (letterbox_size image.width image.height target_width
          target_height).1
        let nh := (letterbox_size image.width image.height target_width
          target_height).2
        if image.width = 0 ∨ nw = 0 ∨ nh = 0 then
          Except.error "cv2.error: resize with empty source or zero size"
        else
          let x_offset := (letterbox_offset image.width image.height
            target_width target_height).1
          let y_offset := (letterbox_offset image.width image.height
            target_width target_height).2
          if x_offset < 0 ∨ y_offset < 0 ∨
              (target_width : Int) < x_offset + nw ∨
              (target_height : Int) < y_offset + nh then
            Except.error "ValueError: could not broadcast"
          else
            Except.ok (letterbox_canvas resizeFn image target_width
              target_height letterbox_color)
    | AspectRatioMode.CROP =>
        let cropped := crop_window image target_width target_height anchor
        if target_width = 0 ∨ cropped.width = 0 ∨ cropped.height = 0 then
          Except.error "cv2.error: resize with empty source or zero size"
        else
          Except.ok (resizeFn cropped target_width target_height)

/-- Model instantiation of the external resize collaborator, used to witness
the hypotheses the theorems place on `resizeFn`: it returns an image of the
requested dimensions by nearest-neighbour sampling. -/
def modelResize (img : Image) (w h : Nat) : Image :=
  { width := w
    height := h
    pixel := fun i j => img.pixel (i * img.width / w) (j * img.height / h) }

/-- The model resize `modelResize` returns the requested dimensions. -/
theorem modelResize_dims (img : Image) (w h : Nat) :
    (modelResize img w h).width = w ∧ (modelResize img w h).height = h :=
  ⟨rfl, rfl⟩

/-- Resizing to the unchanged size with `modelResize` preserves content. -/
theorem modelResize_same_size (img : Image) :
    (modelResize img img.width img.height).EquivContent img := by
  refine ⟨rfl, rfl, fun i j hi hj => ?_⟩
  have hw : 0 < img.width := lt_of_le_of_lt (Nat.zero_le _) hi
  have hh : 0 < img.height := lt_of_le_of_lt (Nat.zero_le _) hj
  simp only [modelResize, Nat.mul_div_cancel i hw, Nat.mul_div_cancel j hh]

/-- Claim C1: for every source rectangle, target rectangle and named anchor,
`calculate_crop_position` returns exactly the pair given by the spec's
per-anchor table (division by 2 truncating toward zero, then a componentwise
clamp to `max 0`); in particular the two worked examples
`resolve(1920x1080, 1080x1080, upper_right) = (840, 0)` and
`resolve(1920x1080, 1080x1080, center) = (420, 0)` hold. -/
theorem claim_C1_anchor_table :
    (∀ sw sh tw th : Int, ∀ a : CropAnchor,
        calculate_crop_position sw sh tw th (AnchorArg.known a) =
          anchor_table_resolve sw sh tw th a) ∧
    calculate_crop_position 1920 1080 1080 1080
        (AnchorArg.known CropAnchor.UPPER_RIGHT) = (840, 0) ∧
    calculate_crop_position 1920 1080 1080 1080
        (AnchorArg.known CropAnchor.CENTER) = (420, 0) := by
  refine ⟨fun sw sh tw th a => ?_, by decide, by decide⟩
  cases a <;>
    simp [calculate_crop_position, anchor_table_resolve,
      max_zero_fdiv_two_eq_tdiv_two]

/-- Whenever the target rectangle fits componentwise inside the source
rectangle, the clamped offset is non-negative and the window stays inside
the source, for every anchor argument. -/
theorem crop_position_bounds (sw sh tw th : Int) (anchor : AnchorArg)
    (hws : tw ≤ sw) (hhs : th ≤ sh) :
    0 ≤ (calculate_crop_position sw sh tw th anchor).1 ∧
    0 ≤ (calculate_crop_position sw sh tw th anchor).2 ∧
    (calculate_crop_position sw sh tw th anchor).1 + tw ≤ sw ∧
    (calculate_crop_position sw sh tw th anchor).2 + th ≤ sh := by
  cases anchor with
  | known a =>
      cases a <;>
        simp [calculate_crop_position, fdiv_two_eq_ediv] <;> omega
  | unknown tag =>
      simp [calculate_crop_position, fdiv_two_eq_ediv]
      omega

/-- Claim C2: whenever the target rectangle fits componentwise inside the
source rectangle, the offset returned by `calculate_crop_position` is
non-negative and the crop window `offset + target` stays inside the source,
for every anchor argument. -/
theorem claim_C2_crop_window_in_bounds (sw sh tw th : Int) (anchor : AnchorArg)
    (htw0 : 0 < tw) (hth0 : 0 < th) (hws : tw ≤ sw) (hhs : th ≤ sh) :
    0 ≤ (calculate_crop_position sw sh tw th anchor).1 ∧
    0 ≤ (calculate_crop_position sw sh tw th anchor).2 ∧
    (calculate_crop_position sw sh tw th anchor).1 + tw ≤ sw ∧
    (calculate_crop_position sw sh tw th anchor).2 + th ≤ sh :=
  crop_position_bounds sw sh tw th anchor hws hhs

/-- Witness for C2 at the concrete input `1920x1080` source, `1080x1080`
target, anchor `center`. -/
theorem claim_C2_witness :
    ((0:Int) < 1080 ∧ (0:Int) < 1080 ∧ (1080:Int) ≤ 1920 ∧
      (1080:Int) ≤ 1080) ∧
    (0 ≤ (calculate_crop_position 1920 1080 1080 1080
            (AnchorArg.known CropAnchor.CENTER)).1 ∧
      0 ≤ (calculate_crop_position 1920 1080 1080 1080
            (AnchorArg.known CropAnchor.CENTER)).2 ∧
      (calculate_crop_position 1920 1080 1080 1080
            (AnchorArg.known CropAnchor.CENTER)).1 + 1080 ≤ 1920 ∧
      (calculate_crop_position 1920 1080 1080 1080
            (AnchorArg.known CropAnchor.CENTER)).2 + 1080 ≤ 1080) :=
  ⟨⟨by norm_num, by norm_num, by norm_num, by norm_num⟩,
    claim_C2_crop_window_in_bounds 1920 1080 1080 1080
      (AnchorArg.known CropAnchor.CENTER)
      (by norm_num) (by norm_num) (by norm_num) (by norm_num)⟩

/-- Claim C6: the embedding of `calculate_crop_position` is a total function
(no operation in the source body can raise), and every anchor value outside
the nine named anchors produces exactly the result of anchor `center`. -/
theorem claim_C6_unknown_anchor_is_center :
    ∀ sw sh tw th : Int, ∀ tag : String,
      calculate_crop_position sw sh tw th (AnchorArg.unknown tag) =
        calculate_crop_position sw sh tw th
          (AnchorArg.known CropAnchor.CENTER) := by
  intro sw sh tw th tag
  simp [calculate_crop_position]

set_option maxRecDepth 100000 in
/-- Claim C9 counterexample: the paste region is not always inside the
canvas.  At a 9007199254740996x1 source and a 9007199254740995x1 target —
the target width is the first integer the float conversion rounds up, to
the same double as the source width — the two aspect ratios compare equal,
the taller branch recomputes `new_width = int(1 * original_aspect) =
9007199254740996 > target_width`, and the horizontal paste offset
`(target_width - new_width) // 2` is `-1`, not non-negative. -/
theorem claim_C9_counterexample :
    (letterbox_offset 9007199254740996 1 9007199254740995 1).1 = -1 ∧
    ¬(0 ≤ (letterbox_offset 9007199254740996 1 9007199254740995 1).1) :=
  ⟨by decide, by decide⟩

/-- Claim C9 (amended): in letterbox mode, for positive source and target
dimensions of at most `2 ^ 40`, the computed paste region lies fully inside
the canvas: both offsets are non-negative and `offset + new size` stays
within the target rectangle, so the slice assignment pasting the resized
content is in bounds. -/
theorem claim_C9_letterbox_paste_in_bounds (ow oh tw th : Nat)
    (how : 0 < ow) (hoh : 0 < oh) (htw : 0 < tw) (hth : 0 < th)
    (b1 : ow ≤ 2 ^ 40) (b2 : oh ≤ 2 ^ 40) (b3 : tw ≤ 2 ^ 40)
    (b4 : th ≤ 2 ^ 40) :
    0 ≤ (letterbox_offset ow oh tw th).1 ∧
    0 ≤ (letterbox_offset ow oh tw th).2 ∧
    (letterbox_offset ow oh tw th).1 + (letterbox_size ow oh tw th).1 ≤
      (tw : Int) ∧
    (letterbox_offset ow oh tw th).2 + (letterbox_size ow oh tw th).2 ≤
      (th : Int) := by
  obtain ⟨h1, h2⟩ := letterbox_size_le ow oh tw th how hoh htw hth b1 b2 b3 b4
  rw [letterbox_offset_eq ow oh tw th how hoh htw hth b1 b2 b3 b4]
  refine ⟨?_, ?_, ?_, ?_⟩ <;> simp only [] <;> omega

/-- Witness for C9 at a 1920x1080 source and 1080x1080 target. -/
theorem claim_C9_witness :
    ((0:Nat) < 1920 ∧ (0:Nat) < 1080 ∧ 1920 ≤ 2 ^ 40 ∧ 1080 ≤ 2 ^ 40) ∧
    (0 ≤ (letterbox_offset 1920 1080 1080 1080).1 ∧
      0 ≤ (letterbox_offset 1920 1080 1080 1080).2 ∧
      (letterbox_offset 1920 1080 1080 1080).1 +
        (letterbox_size 1920 1080 1080 1080).1 ≤ (1080 : Int) ∧
      (letterbox_offset 1920 1080 1080 1080).2 +
        (letterbox_size 1920 1080 1080 1080).2 ≤ (1080 : Int)) :=
  ⟨⟨by norm_num, by norm_num, by norm_num, by norm_num⟩,
    claim_C9_letterbox_paste_in_bounds 1920 1080 1080 1080
      (by norm_num) (by norm_num) (by norm_num) (by norm_num)
      (by norm_num) (by norm_num) (by norm_num) (by norm_num)⟩

/-- A concrete 1920x1080 test image with position-dependent pixels. -/
def testImage : Image :=
  { width := 1920
    height := 1080
    pixel := fun i j => ⟨i % 256, j % 256, 0⟩ }

/-- A concrete all-white 1x49 image. -/
def img149 : Image :=
  { width := 1
    height := 49
    pixel := fun _ _ => ⟨255, 255, 255⟩ }

set_option maxRecDepth 100000 in
/-- Claim C3 counterexample: at a 1x49 source and a 1x49 target the float
aspect ratios compare equal, the taller branch computes
`new_width = int(49 * float(1/49))`, and because `49 * (1/49)` rounds to
just below `1` the truncation yields `0` — not the
`floor(target_height * original_width / original_height) = 1` of the
claim's formula — whereupon `cv2.resize` raises on the zero dimension
instead of returning a letterboxed image. -/
theorem claim_C3_counterexample :
    (letterbox_size 1 49 1 49).1 = 0 ∧
    49 * 1 / 49 = 1 ∧
    resize_with_aspect_ratio modelResize img149 1 49
        AspectRatioMode.LETTERBOX (AnchorArg.known CropAnchor.CENTER)
        ⟨0, 0, 0⟩ =
      Except.error "cv2.error: resize with empty source or zero size" :=
  ⟨by decide, by decide, rfl⟩

/-- Claim C3 (amended): in letterbox mode with positive dimensions of at
most `2 ^ 40`, whenever the float-computed intermediate size is nonzero the
call succeeds and returns the canvas: the intermediate size fits inside the
target, the content is pasted at the centered offset
`((tw - nw) / 2, (th - nh) / 2)` with integer division, the result has
exactly the target dimensions, the pixels of the paste region come from the
resized image, and every pixel outside it equals the letterbox color
exactly. -/
theorem claim_C3_letterbox_mode (resizeFn : Image → Nat → Nat → Image)
    (image : Image) (tw th : Nat) (anchor : AnchorArg) (color : Color)
    (how : 0 < image.width) (hoh : 0 < image.height)
    (htw : 0 < tw) (hth : 0 < th)
    (b1 : image.width ≤ 2 ^ 40) (b2 : image.height ≤ 2 ^ 40)
    (b3 : tw ≤ 2 ^ 40) (b4 : th ≤ 2 ^ 40)
    (hnw : 0 < (letterbox_size image.width image.height tw th).1)
    (hnh : 0 < (letterbox_size image.width image.height tw th).2) :
    let ow := image.width
    let oh := image.height
    let nw := (letterbox_size ow oh tw th).1
    let nh := (letterbox_size ow oh tw th).2
    let xo := (tw - nw) / 2
    let yo := (th - nh) / 2
    let result := letterbox_canvas resizeFn image tw th color
    resize_with_aspect_ratio resizeFn image tw th AspectRatioMode.LETTERBOX
        anchor color = Except.ok result ∧
    nw ≤ tw ∧ nh ≤ th ∧
    letterbox_offset ow oh tw th = ((xo : Int), (yo : Int)) ∧
    result.width = tw ∧ result.height = th ∧
    (∀ i j : Nat, i < tw → j < th →
      ((xo ≤ i ∧ i < xo + nw ∧ yo ≤ j ∧ j < yo + nh) →
        result.pixel i j = (resizeFn image nw nh).pixel (i - xo) (j - yo)) ∧
      (¬(xo ≤ i ∧ i < xo + nw ∧ yo ≤ j ∧ j < yo + nh) →
        result.pixel i j = color)) := by
  intro ow oh nw nh xo yo result
  obtain ⟨hle1, hle2⟩ := letterbox_size_le image.width image.height tw th
    how hoh htw hth b1 b2 b3 b4
  have hoff := letterbox_offset_eq image.width image.height tw th
    how hoh htw hth b1 b2 b3 b4
  have g1 : ¬(th = 0 ∨ image.height = 0) := by omega
  have g2 : ¬(image.width = 0 ∨
      (letterbox_size image.width image.height tw th).1 = 0 ∨
      (letterbox_size image.width image.height tw th).2 = 0) := by omega
  have g3 : ¬((letterbox_offset image.width image.height tw th).1 < 0 ∨
      (letterbox_offset image.width image.height tw th).2 < 0 ∨
      (tw : Int) < (letterbox_offset image.width image.height tw th).1 +
        (letterbox_size image.width image.height tw th).1 ∨
      (th : Int) < (letterbox_offset image.width image.height tw th).2 +
        (letterbox_size image.width image.height tw th).2) := by
    rw [hoff]
    simp only []
    omega
  have hok : resize_with_aspect_ratio resizeFn image tw th
      AspectRatioMode.LETTERBOX anchor color =
      Except.ok (letterbox_canvas resizeFn image tw th color) := by
    simp only [ resize_with_aspect_ratio]
    rw [if_neg g1, if_neg g2, if_neg g3]
  refine ⟨hok, hle1, hle2, hoff, rfl, rfl, ?_⟩
  intro i j hi hj
  have hres : result.pixel i j =
      (if (xo : Int) ≤ (i : Int) ∧ (i : Int) < (xo : Int) + nw ∧
          (yo : Int) ≤ (j : Int) ∧ (j : Int) < (yo : Int) + nh then
        (resizeFn image nw nh).pixel ((i : Int) - (xo : Int)).toNat
          ((j : Int) - (yo : Int)).toNat
      else color) := by
    show (letterbox_canvas resizeFn image tw th color).pixel i j = _
    simp only [letterbox_canvas, hoff]
  constructor
  · intro hin
    have hcond : (xo : Int) ≤ (i : Int) ∧ (i : Int) < (xo : Int) + nw ∧
        (yo : Int) ≤ (j : Int) ∧ (j : Int) < (yo : Int) + nh := by omega
    rw [hres, if_pos hcond, Int.toNat_sub i xo, Int.toNat_sub j yo]
  · intro hout
    have hcond : ¬((xo : Int) ≤ (i : Int) ∧ (i : Int) < (xo : Int) + nw ∧
        (yo : Int) ≤ (j : Int) ∧ (j : Int) < (yo : Int) + nh) := by omega
    rw [hres, if_neg hcond]

set_option maxRecDepth 100000 in
/-- Witness for C3: letterboxing the 1920x1080 test image into 1080x1080
with the model resize function. -/
theorem claim_C3_witness :
    (0 < testImage.width ∧ 0 < testImage.height ∧
      (0 : Nat) < 1080 ∧ (0 : Nat) < 1080 ∧
      testImage.width ≤ 2 ^ 40 ∧ testImage.height ≤ 2 ^ 40 ∧
      (1080 : Nat) ≤ 2 ^ 40 ∧ (1080 : Nat) ≤ 2 ^ 40 ∧
      0 < (letterbox_size testImage.width testImage.height 1080 1080).1 ∧
      0 < (letterbox_size testImage.width testImage.height 1080 1080).2) ∧
    (let ow := testImage.width
     let oh := testImage.height
     let nw := (letterbox_size ow oh 1080 1080).1
     let nh := (letterbox_size ow oh 1080 1080).2
     let xo := (1080 - nw) / 2
     let yo := (1080 - nh) / 2
     let result := letterbox_canvas modelResize testImage 1080 1080 ⟨0, 0, 0⟩
     resize_with_aspect_ratio modelResize testImage 1080 1080
         AspectRatioMode.LETTERBOX (AnchorArg.known CropAnchor.CENTER)
         ⟨0, 0, 0⟩ = Except.ok result ∧
     nw ≤ 1080 ∧ nh ≤ 1080 ∧
     letterbox_offset ow oh 1080 1080 = ((xo : Int), (yo : Int)) ∧
     result.width = 1080 ∧ result.height = 1080 ∧
     (∀ i j : Nat, i < 1080 → j < 1080 →
       ((xo ≤ i ∧ i < xo + nw ∧ yo ≤ j ∧ j < yo + nh) →
         result.pixel i j =
           (modelResize testImage nw nh).pixel (i - xo) (j - yo)) ∧
       (¬(xo ≤ i ∧ i < xo + nw ∧ yo ≤ j ∧ j < yo + nh) →
         result.pixel i j = ⟨0, 0, 0⟩))) :=
  ⟨⟨by norm_num [testImage], by norm_num [testImage],
      by norm_num, by norm_num, by norm_num [testImage],
      by norm_num [testImage], by norm_num, by norm_num,
      by decide, by decide⟩,
    claim_C3_letterbox_mode modelResize testImage 1080 1080
      (AnchorArg.known CropAnchor.CENTER) ⟨0, 0, 0⟩
      (by norm_num [testImage]) (by norm_num [testImage])
      (by norm_num) (by norm_num) (by norm_num [testImage])
      (by norm_num [testImage]) (by norm_num) (by norm_num)
      (by decide) (by decide)⟩

/-- A concrete all-white 2x49 image. -/
def img249 : Image :=
  { width := 2
    height := 49
    pixel := fun _ _ => ⟨255, 255, 255⟩ }

set_option maxRecDepth 100000 in
/-- Claim C4 counterexample: at a 2x49 source and a 1x49 target the source
is relatively wider, the crop branch computes
`crop_width = int(49 * float(1/49))`, and because `49 * (1/49)` rounds to
just below `1` the truncation yields `0` — not the
`floor(original_height * target_width / target_height) = 1` of the claim's
formula — whereupon the crop window is empty and `cv2.resize` raises
instead of returning a cropped image. -/
theorem claim_C4_counterexample :
    (crop_size 2 49 1 49).1 = 0 ∧
    49 * 1 / 49 = 1 ∧
    resize_with_aspect_ratio modelResize img249 1 49
        AspectRatioMode.CROP (AnchorArg.known CropAnchor.CENTER)
        ⟨0, 0, 0⟩ =
      Except.error "cv2.error: resize with empty source or zero size" :=
  ⟨by decide, by decide, rfl⟩

/-- Claim C4 (amended): in crop mode with positive dimensions of at most
`2 ^ 40`, whenever the float-computed crop size is nonzero the call
succeeds: the crop window fits inside the source, is positioned by the
anchor resolver, stays entirely inside the source image, and the result is
the final resize of exactly that sub-rectangle of original pixels, with the
target dimensions. -/
theorem claim_C4_crop_mode (resizeFn : Image → Nat → Nat → Image)
    (image : Image) (tw th : Nat) (anchor : AnchorArg) (color : Color)
    (hdim : ∀ img w h, (resizeFn img w h).width = w ∧
      (resizeFn img w h).height = h)
    (how : 0 < image.width) (hoh : 0 < image.height)
    (htw : 0 < tw) (hth : 0 < th)
    (b1 : image.width ≤ 2 ^ 40) (b2 : image.height ≤ 2 ^ 40)
    (b3 : tw ≤ 2 ^ 40) (b4 : th ≤ 2 ^ 40)
    (hcw : 0 < (crop_size image.width image.height tw th).1)
    (hch : 0 < (crop_size image.width image.height tw th).2) :
    let ow := image.width
    let oh := image.height
    let cw := (crop_size ow oh tw th).1
    let ch := (crop_size ow oh tw th).2
    let x := (calculate_crop_position (ow : Int) (oh : Int) (cw : Int)
      (ch : Int) anchor).1.toNat
    let y := (calculate_crop_position (ow : Int) (oh : Int) (cw : Int)
      (ch : Int) anchor).2.toNat
    cw ≤ ow ∧ ch ≤ oh ∧ x + cw ≤ ow ∧ y + ch ≤ oh ∧
    crop_window image tw th anchor =
      { width := cw
        height := ch
        pixel := fun i j => image.pixel (x + i) (y + j) } ∧
    resize_with_aspect_ratio resizeFn image tw th AspectRatioMode.CROP
        anchor color =
      Except.ok (resizeFn (crop_window image tw th anchor) tw th) ∧
    (resizeFn (crop_window image tw th anchor) tw th).width = tw ∧
    (resizeFn (crop_window image tw th anchor) tw th).height = th := by
  intro ow oh cw ch x y
  have hcw2 : 0 < cw := hcw
  have hch2 : 0 < ch := hch
  obtain ⟨hcwle, hchle⟩ := crop_size_le ow oh tw th
    how hoh htw hth b1 b2 b3 b4
  obtain ⟨hx0, hy0, hxw, hyh⟩ := crop_position_bounds (ow : Int)
    (oh : Int) (cw : Int) (ch : Int) anchor
    (by exact_mod_cast hcwle) (by exact_mod_cast hchle)
  have hx : x + cw ≤ ow := by omega
  have hy : y + ch ≤ oh := by omega
  have h1 : min cw (ow - x) = cw := by omega
  have h2 : min ch (oh - y) = ch := by omega
  have hwin : crop_window image tw th anchor =
      { width := cw
        height := ch
        pixel := fun i j => image.pixel (x + i) (y + j) } := by
    show ({ width := min cw (ow - x)
            height := min ch (oh - y)
            pixel := fun i j => image.pixel (x + i) (y + j) } : Image) = _
    rw [h1, h2]
  have hok : resize_with_aspect_ratio resizeFn image tw th
      AspectRatioMode.CROP anchor color =
      Except.ok (resizeFn (crop_window image tw th anchor) tw th) := by
    simp only [ resize_with_aspect_ratio]
    rw [if_neg (by omega : ¬(th = 0 ∨ image.height = 0)), if_neg ?_]
    rw [hwin]
    simp only []
    omega
  exact ⟨hcwle, hchle, hx, hy, hwin, hok,
    (hdim (crop_window image tw th anchor) tw th).1,
    (hdim (crop_window image tw th anchor) tw th).2⟩

set_option maxRecDepth 100000 in
/-- Witness for C4: cropping the 1920x1080 test image to 1080x1080 with
anchor `upper_right` and the model resize function. -/
theorem claim_C4_witness :
    ((∀ img w h, (modelResize img w h).width = w ∧
        (modelResize img w h).height = h) ∧
      0 < testImage.width ∧ 0 < testImage.height ∧
      (0 : Nat) < 1080 ∧ (0 : Nat) < 1080 ∧
      testImage.width ≤ 2 ^ 40 ∧ testImage.height ≤ 2 ^ 40 ∧
      (1080 : Nat) ≤ 2 ^ 40 ∧ (1080 : Nat) ≤ 2 ^ 40 ∧
      0 < (crop_size testImage.width testImage.height 1080 1080).1 ∧
      0 < (crop_size testImage.width testImage.height 1080 1080).2) ∧
    (let ow := testImage.width
     let oh := testImage.height
     let cw := (crop_size ow oh 1080 1080).1
     let ch := (crop_size ow oh 1080 1080).2
     let x := (calculate_crop_position (ow : Int) (oh : Int) (cw : Int)
       (ch : Int) (AnchorArg.known CropAnchor.UPPER_RIGHT)).1.toNat
     let y := (calculate_crop_position (ow : Int) (oh : Int) (cw : Int)
       (ch : Int) (AnchorArg.known CropAnchor.UPPER_RIGHT)).2.toNat
     cw ≤ ow ∧ ch ≤ oh ∧ x + cw ≤ ow ∧ y + ch ≤ oh ∧
     crop_window testImage 1080 1080
         (AnchorArg.known CropAnchor.UPPER_RIGHT) =
       { width := cw
         height := ch
         pixel := fun i j => testImage.pixel (x + i) (y + j) } ∧
     resize_with_aspect_ratio modelResize testImage 1080 1080
         AspectRatioMode.CROP (AnchorArg.known CropAnchor.UPPER_RIGHT)
         ⟨0, 0, 0⟩ =
       Except.ok (modelResize (crop_window testImage 1080 1080
         (AnchorArg.known CropAnchor.UPPER_RIGHT)) 1080 1080) ∧
     (modelResize (crop_window testImage 1080 1080
       (AnchorArg.known CropAnchor.UPPER_RIGHT)) 1080 1080).width = 1080 ∧
     (modelResize (crop_window testImage 1080 1080
       (AnchorArg.known CropAnchor.UPPER_RIGHT)) 1080 1080).height = 1080) :=
  ⟨⟨modelResize_dims, by norm_num [testImage], by norm_num [testImage],
      by norm_num, by norm_num, by norm_num [testImage],
      by norm_num [testImage], by norm_num, by norm_num,
      by decide, by decide⟩,
    claim_C4_crop_mode modelResize testImage 1080 1080
      (AnchorArg.known CropAnchor.UPPER_RIGHT) ⟨0, 0, 0⟩ modelResize_dims
      (by norm_num [testImage]) (by norm_num [testImage])
      (by norm_num) (by norm_num) (by norm_num [testImage])
      (by norm_num [testImage]) (by norm_num) (by norm_num)
      (by decide) (by decide)⟩

/-- When the requested window is the whole source, every anchor (including
invalid ones) yields the offset `(0, 0)`. -/
theorem crop_position_self (sw sh : Int) (anchor : AnchorArg) :
    calculate_crop_position sw sh sw sh anchor = (0, 0) := by
  cases anchor with
  | known a => cases a <;> simp [calculate_crop_position, Int.zero_fdiv]
  | unknown t => simp [calculate_crop_position, Int.zero_fdiv]

/-- A concrete all-white 2x98 image. -/
def img298 : Image :=
  { width := 2
    height := 98
    pixel := fun _ _ => ⟨255, 255, 255⟩ }

set_option maxRecDepth 1000000 in
/-- Claim C5 counterexample: letterboxing an all-white 2x98 image to its own
2x98 size is not content-preserving.  The float computation gives
`new_width = int(98 * float(2/98)) = 1`, so the image is resized to 1x98
and pasted at offset `(0, 0)`, and the canvas column at `x = 1` keeps the
black letterbox color where the original is white. -/
theorem claim_C5_counterexample :
    letterbox_size 2 98 2 98 = (1, 98) ∧
    (match resize_with_aspect_ratio modelResize img298 2 98
        AspectRatioMode.LETTERBOX (AnchorArg.known CropAnchor.CENTER)
        ⟨0, 0, 0⟩ with
     | Except.ok res =>
         res.pixel 1 0 = ⟨0, 0, 0⟩ ∧ img298.pixel 1 0 = ⟨255, 255, 255⟩ ∧
           ¬res.EquivContent img298
     | Except.error _ => False) := by
  refine ⟨by decide, ?_⟩
  have hres : resize_with_aspect_ratio modelResize img298 2 98
      AspectRatioMode.LETTERBOX (AnchorArg.known CropAnchor.CENTER)
      ⟨0, 0, 0⟩ =
      Except.ok (letterbox_canvas modelResize img298 2 98 ⟨0, 0, 0⟩) := rfl
  rw [hres]
  refine ⟨by decide, by decide, ?_⟩
  rintro ⟨hw, hh, hp⟩
  have h10 := hp 1 0 (by decide) (by decide)
  rw [show (letterbox_canvas modelResize img298 2 98 ⟨0, 0, 0⟩).pixel 1 0 =
      (⟨0, 0, 0⟩ : Color) by decide,
    show img298.pixel 1 0 = (⟨255, 255, 255⟩ : Color) from rfl] at h10
  exact absurd h10 (by decide)

/-- Claim C5 (amended): for every image with positive dimensions whose
self-targeted float size computations are exact — `letterbox_size` and
`crop_size` at target = source return the source dimensions, as they do for
every square image — the fit transform at the source dimensions succeeds
and returns content equivalent to the original, in both modes, for every
anchor and letterbox color, assuming only that the external resize is
content-preserving at the unchanged size. -/
theorem claim_C5_identity_case (resizeFn : Image → Nat → Nat → Image)
    (image : Image) (mode : AspectRatioMode) (anchor : AnchorArg)
    (color : Color)
    (hid : ∀ img : Image,
      (resizeFn img img.width img.height).EquivContent img)
    (how : 0 < image.width) (hoh : 0 < image.height)
    (hsz1 : letterbox_size image.width image.height image.width
      image.height = (image.width, image.height))
    (hsz2 : crop_size image.width image.height image.width image.height =
      (image.width, image.height)) :
    ∃ res : Image,
      resize_with_aspect_ratio resizeFn image image.width image.height mode
        anchor color = Except.ok res ∧ res.EquivContent image := by
  have ga : ¬(image.height = 0 ∨ image.height = 0) := by omega
  cases mode with
  | LETTERBOX =>
      have hoff : letterbox_offset image.width image.height image.width
          image.height = (0, 0) := by
        simp only [letterbox_offset, hsz1, sub_self, Int.zero_fdiv]
      have gb : ¬(image.width = 0 ∨
          (letterbox_size image.width image.height image.width
            image.height).1 = 0 ∨
          (letterbox_size image.width image.height image.width
            image.height).2 = 0) := by
        rw [hsz1]
        simp only []
        omega
      have gc : ¬((letterbox_offset image.width image.height image.width
            image.height).1 < 0 ∨
          (letterbox_offset image.width image.height image.width
            image.height).2 < 0 ∨
          (image.width : Int) < (letterbox_offset image.width image.height
            image.width image.height).1 +
            (letterbox_size image.width image.height image.width
              image.height).1 ∨
          (image.height : Int) < (letterbox_offset image.width image.height
            image.width image.height).2 +
            (letterbox_size image.width image.height image.width
              image.height).2) := by
        rw [hoff, hsz1]
        simp only []
        omega
      refine ⟨letterbox_canvas resizeFn image image.width image.height color,
        ?_, ?_⟩
      · simp only [ resize_with_aspect_ratio]
        rw [if_neg ga, if_neg gb, if_neg gc]
      · refine ⟨rfl, rfl, ?_⟩
        intro i j hi hj
        have hi2 : i < image.width := hi
        have hj2 : j < image.height := hj
        have hres : (letterbox_canvas resizeFn image image.width
            image.height color).pixel i j =
            (resizeFn image image.width image.height).pixel i j := by
          simp only [letterbox_canvas, hsz1, hoff]
          rw [if_pos (by norm_num; omega)]
          norm_num
        rw [hres]
        obtain ⟨hw, hh, hp⟩ := hid image
        exact hp i j (by rw [hw]; exact hi2) (by rw [hh]; exact hj2)
  | CROP =>
      have hwin : crop_window image image.width image.height anchor =
          image := by
        simp only [crop_window, hsz2, crop_position_self, Int.toNat_zero,
          Nat.sub_zero, min_self, Nat.zero_add]
      have gd : ¬(image.width = 0 ∨
          (crop_window image image.width image.height anchor).width = 0 ∨
          (crop_window image image.width image.height anchor).height =
            0) := by
        rw [hwin]
        omega
      refine ⟨resizeFn image image.width image.height, ?_, hid image⟩
      simp only [ resize_with_aspect_ratio]
      rw [if_neg ga, if_neg gd, hwin]

/-- A concrete 256x256 square image with position-dependent pixels. -/
def sqImage : Image :=
  { width := 256
    height := 256
    pixel := fun i j => ⟨i % 256, j % 256, 7⟩ }

set_option maxRecDepth 100000 in
/-- Witness for C5: fitting the square 256x256 image to its own size in
crop mode with an off-center anchor and a non-black letterbox color is
content-preserving; the exactness hypotheses hold by computation. -/
theorem claim_C5_witness :
    ((∀ img : Image,
        (modelResize img img.width img.height).EquivContent img) ∧
      0 < sqImage.width ∧ 0 < sqImage.height ∧
      letterbox_size sqImage.width sqImage.height sqImage.width
        sqImage.height = (sqImage.width, sqImage.height) ∧
      crop_size sqImage.width sqImage.height sqImage.width sqImage.height =
        (sqImage.width, sqImage.height)) ∧
    (∃ res : Image,
      resize_with_aspect_ratio modelResize sqImage sqImage.width
          sqImage.height AspectRatioMode.CROP
          (AnchorArg.known CropAnchor.LOWER_RIGHT) ⟨255, 255, 255⟩ =
        Except.ok res ∧ res.EquivContent sqImage) :=
  ⟨⟨modelResize_same_size, by norm_num [sqImage], by norm_num [sqImage],
      by decide, by decide⟩,
    claim_C5_identity_case modelResize sqImage AspectRatioMode.CROP
      (AnchorArg.known CropAnchor.LOWER_RIGHT) ⟨255, 255, 255⟩
      modelResize_same_size (by norm_num [sqImage]) (by norm_num [sqImage])
      (by decide) (by decide)⟩

/-- The image extension allow-list (constants.py line 31), each extension a
list of characters including the leading dot. -/
def IMAGE_EXTENSIONS : List (List Char) :=
  [['.', 'j', 'p', 'g'], ['.', 'j', 'p', 'e', 'g'], ['.', 'p', 'n', 'g'],
    ['.', 'g', 'i', 'f'], ['.', 'b', 'm', 'p'], ['.', 'w', 'e', 'b', 'p'],
    ['.', 't', 'i', 'f', 'f']]

/-- The video extension allow-list (constants.py line 32). -/
def VIDEO_EXTENSIONS : List (List Char) :=
  [['.', 'm', 'p', '4'], ['.', 'a', 'v', 'i'], ['.', 'm', 'o', 'v'],
    ['.', 'm', 'k', 'v'], ['.', 'w', 'e', 'b', 'm']]

/-- Model of `str.rfind('.')`: the index of the last dot in a name, if any. -/
def lastDotIdx : List Char → Option Nat
  | [] => none
  | c :: rest =>
      match lastDotIdx rest with
      | some i => some (i + 1)
      | none => if c = '.' then some 0 else none

/-- Model of `pathlib.Path(name).suffix` for a plain file name: the substring from
the last dot on, unless that dot is at position 0 or is the final character
(pathlib: `if 0 < i < len(name) - 1: return name[i:] else return ''`). -/
def pySuffix (name : List Char) : List Char :=
  match lastDotIdx name with
  | none => []
  | some i => if 0 < i ∧ i < name.length - 1 then name.drop i else []

/-- Embedding of `is_image_file` (constants.py lines 188-191): the lowercased suffix is
in the image allow-list. -/
def is_image_file (name : List Char) : Bool :=
  decide ((pySuffix name).map Char.toLower ∈ IMAGE_EXTENSIONS)

/-- Embedding of `is_video_file` (constants.py lines 194-197). -/
def is_video_file (name : List Char) : Bool :=
  decide ((pySuffix name).map Char.toLower ∈ VIDEO_EXTENSIONS)

/-- Outcome model of the external calls made while processing one file.
`readResult` models `cv2.imread` (`.ok none` = unreadable/corrupt file,
`.error e` = a raising read); `opened` models
`cv2.VideoCapture(path).isOpened()`; `restResult` models the remaining
effectful steps after a successful open/read (transform, frame loop, write,
stat): `.error e` means one of them raised `e`. -/
structure MediaFile where
  name : List Char
  readResult : Except String (Option Image)
  opened : Bool
  restResult : Except String Unit

/-- The `try` body of `process_image` (change_aspect_ratio.py, lines
240-262): read; return `False` if the read yields nothing; otherwise
transform, write and report, propagating any raise — including a raise
from inside the fit transform itself. -/
def process_image_body (resizeFn : Image → Nat → Nat → Image)
    (target_width target_height : Nat) (mode : AspectRatioMode)
    (anchor : AnchorArg) (letterbox_color : Color) (f : MediaFile) :
    Except String Bool :=
  match f.readResult with
  | Except.error e => Except.error e
  | Except.ok none => Except.ok false
  | Except.ok (some image) =>
      match resize_with_aspect_ratio resizeFn image target_width
          target_height mode anchor letterbox_color with
      | Except.error e => Except.error e
      | Except.ok _result =>
          match f.restResult with
          | Except.error e => Except.error e
          | Except.ok _ => Except.ok true

/-- Embedding of `process_image` (lines 216-266): the body wrapped in
`try ... except Exception: return False`. -/
def process_image (resizeFn : Image → Nat → Nat → Image)
    (target_width target_height : Nat) (mode : AspectRatioMode)
    (anchor : AnchorArg) (letterbox_color : Color) (f : MediaFile) : Bool :=
  match process_image_body resizeFn target_width target_height mode anchor
      letterbox_color f with
  | Except.ok b => b
  | Except.error _ => false

/-- The `try` body of `process_video` (lines 293-333): return `False` if the
capture did not open, otherwise run the frame loop and writer, propagating
any raise. -/
def process_video_body (f : MediaFile) : Except String Bool :=
  if f.opened = false then Except.ok false
  else
    match f.restResult with
    | Except.error e => Except.error e
    | Except.ok _ => Except.ok true

/-- Embedding of `process_video` (lines 269-337): the body wrapped in
`try ... except Exception: return False`. -/
def process_video (f : MediaFile) : Bool :=
  match process_video_body f with
  | Except.ok b => b
  | Except.error _ => false

/-- Model of `folder.glob('*' + ext)` membership test for one file name: the
name ends with `ext`.  Unlike the shell, `pathlib.Path.glob` gives `*` no
special case for leading dots, so names beginning with a dot (and the bare
name `ext` itself) are matched too. -/
def globMatch (ext : List Char) (name : List Char) : Bool :=
  ext.isSuffixOf name

/-- Lexicographic comparison of names by character code: the order
`sorted()` uses on the discovered paths. -/
def nameLe : List Char → List Char → Bool
  | [], _ => true
  | _ :: _, [] => false
  | c :: a, d :: b => if c = d then nameLe a b else decide (c < d)

/-- Stable insertion used to model `sorted(files)`. -/
def insertSorted (f : MediaFile) : List MediaFile → List MediaFile
  | [] => [f]
  | g :: rest =>
      if nameLe f.name g.name then f :: g :: rest else g :: insertSorted f rest

/-- Model of `sorted(files)` by name (insertion sort, a stable sort like Python's). -/
def sortByName : List MediaFile → List MediaFile
  | [] => []
  | f :: rest => insertSorted f (sortByName rest)

/-- Embedding of `get_media_files` (lines 340-367): collect, for every allow-listed image
extension (when images are requested) and every video extension (when videos
are requested), the files of the folder matching the glob pattern
`*<ext>`, and return them sorted.  The folder is modelled by the list of
files it contains. -/
def get_media_files (folder : List MediaFile) (media_type : String) :
    List MediaFile :=
  let imageFiles :=
    if media_type = "images" ∨ media_type = "both" then
      IMAGE_EXTENSIONS.foldl
        (fun acc ext => acc ++ folder.filter (fun f => globMatch ext f.name))
        []
    else []
  let videoFiles :=
    if media_type = "videos" ∨ media_type = "both" then
      VIDEO_EXTENSIONS.foldl
        (fun acc ext => acc ++ folder.filter (fun f => globMatch ext f.name))
        []
    else []
  sortByName (imageFiles ++ videoFiles)

/-- One iteration of the batch loop (lines 410-440): compute the lowercased
suffix, dispatch to `process_image` when it is an image extension and to
`process_video` otherwise. -/
def batch_item (resizeFn : Image → Nat → Nat → Image)
    (target_width target_height : Nat) (mode : AspectRatioMode)
    (anchor : AnchorArg) (letterbox_color : Color) (f : MediaFile) : Bool :=
  let ext := (pySuffix f.name).map Char.toLower
  if ext ∈ IMAGE_EXTENSIONS then
    process_image resizeFn target_width target_height mode anchor
      letterbox_color f
  else
    process_video f

/-- Which processor the batch loop hands a file to. -/
inductive Dispatch where
  | image
  | video
deriving DecidableEq, Repr

/-- The dispatch decision of the batch loop (lines 415-416): `is_image` is
membership of the lowercased suffix in `IMAGE_EXTENSIONS`. -/
def batch_dispatch (f : MediaFile) : Dispatch :=
  if (pySuffix f.name).map Char.toLower ∈ IMAGE_EXTENSIONS then
    Dispatch.image
  else
    Dispatch.video

/-- The success tally of the batch loop (lines 409-440). -/
def batch_success_count (resizeFn : Image → Nat → Nat → Image)
    (target_width target_height : Nat) (mode : AspectRatioMode)
    (anchor : AnchorArg) (letterbox_color : Color) :
    List MediaFile → Nat
  | [] => 0
  | f :: rest =>
      (if batch_item resizeFn target_width target_height mode anchor
          letterbox_color f then 1 else 0) +
        batch_success_count resizeFn target_width target_height mode anchor
          letterbox_color rest

/-- Observable outcome of a batch run: whether the no-media warning fired,
which files were attempted, which outputs were written (one per successful
file), and the reported tally (`none` when the run returned before
processing anything). -/
structure BatchReport where
  warnedNoMedia : Bool
  attempted : List (List Char)
  outputsWritten : List (List Char)
  successCount : Option Nat
deriving Repr

/-- Embedding of `batch_process` (lines 370-443): discover the media files; if none,
warn and return without processing or writing; otherwise process every
file in order and report the success tally. -/
def batch_process (resizeFn : Image → Nat → Nat → Image)
    (folder : List MediaFile) (target_width target_height : Nat)
    (mode : AspectRatioMode) (anchor : AnchorArg) (letterbox_color : Color)
    (media_type : String) : BatchReport :=
  let media_files := get_media_files folder media_type
  if media_files.isEmpty then
    { warnedNoMedia := true
      attempted := []
      outputsWritten := []
      successCount := none }
  else
    { warnedNoMedia := false
      attempted := media_files.map (fun f => f.name)
      outputsWritten :=
        (media_files.filter (fun f => batch_item resizeFn target_width
          target_height mode anchor letterbox_color f)).map (fun f => f.name)
      successCount := some (batch_success_count resizeFn target_width
        target_height mode anchor letterbox_color media_files) }

/-- Membership in a stable insertion. -/
theorem mem_insertSorted (f a : MediaFile) (l : List MediaFile) :
    a ∈ insertSorted f l ↔ a = f ∨ a ∈ l := by
  induction l with
  | nil => simp [insertSorted]
  | cons g rest ih =>
      simp only [insertSorted]
      split
      · simp [List.mem_cons]
      · simp only [List.mem_cons, ih]
        tauto

/-- Sorting by name preserves membership. -/
theorem mem_sortByName (a : MediaFile) (l : List MediaFile) :
    a ∈ sortByName l ↔ a ∈ l := by
  induction l with
  | nil => simp [sortByName]
  | cons f rest ih =>
      simp only [sortByName, mem_insertSorted, ih, List.mem_cons]

/-- Membership in the glob-collecting fold of `get_media_files`. -/
theorem mem_foldl_filter (folder : List MediaFile) (exts : List (List Char))
    (init : List MediaFile) (a : MediaFile) :
    a ∈ exts.foldl
        (fun acc ext => acc ++ folder.filter (fun f => globMatch ext f.name))
        init ↔
      a ∈ init ∨ ∃ ext, ext ∈ exts ∧ a ∈ folder ∧
        globMatch ext a.name = true := by
  induction exts generalizing init with
  | nil => simp
  | cons e rest ih =>
      rw [List.foldl_cons, ih]
      simp only [List.mem_append, List.mem_filter, List.mem_cons]
      constructor
      · rintro (⟨h | ⟨h1, h2⟩⟩ | ⟨ext, hext, h1, h2⟩)
        · exact Or.inl h
        · exact Or.inr ⟨e, Or.inl rfl, h1, h2⟩
        · exact Or.inr ⟨ext, Or.inr hext, h1, h2⟩
      · rintro (h | ⟨ext, hext | hext, h1, h2⟩)
        · exact Or.inl (Or.inl h)
        · exact Or.inl (Or.inr ⟨h1, hext ▸ h2⟩)
        · exact Or.inr ⟨ext, hext, h1, h2⟩

/-- Every file discovered by `get_media_files` comes from the folder and
matches the glob of some allow-listed extension. -/
theorem mem_get_media_files (folder : List MediaFile) (media_type : String)
    (f : MediaFile) (h : f ∈ get_media_files folder media_type) :
    f ∈ folder ∧ ∃ ext, (ext ∈ IMAGE_EXTENSIONS ∨ ext ∈ VIDEO_EXTENSIONS) ∧
      globMatch ext f.name = true := by
  simp only [get_media_files] at h
  rw [mem_sortByName, List.mem_append] at h
  rcases h with h | h
  · by_cases hmt : media_type = "images" ∨ media_type = "both"
    · rw [if_pos hmt, mem_foldl_filter] at h
      rcases h with h | ⟨ext, hext, h1, h2⟩
      · simp at h
      · exact ⟨h1, ext, Or.inl hext, h2⟩
    · rw [if_neg hmt] at h
      simp at h
  · by_cases hmt : media_type = "videos" ∨ media_type = "both"
    · rw [if_pos hmt, mem_foldl_filter] at h
      rcases h with h | ⟨ext, hext, h1, h2⟩
      · simp at h
      · exact ⟨h1, ext, Or.inr hext, h2⟩
    · rw [if_neg hmt] at h
      simp at h

/-- A dot-free character list has no last dot. -/
theorem lastDotIdx_eq_none (l : List Char) (h : '.' ∉ l) :
    lastDotIdx l = none := by
  induction l with
  | nil => rfl
  | cons c rest ih =>
      simp only [List.mem_cons, not_or] at h
      simp only [lastDotIdx, ih h.2]
      rw [if_neg (fun hc => h.1 hc.symm)]

/-- The last dot of `pre ++ '.' :: tail` with a dot-free tail sits exactly
at position `pre.length`. -/
theorem lastDotIdx_append (pre tail : List Char) (h : '.' ∉ tail) :
    lastDotIdx (pre ++ '.' :: tail) = some pre.length := by
  induction pre with
  | nil =>
      simp [List.nil_append, lastDotIdx, lastDotIdx_eq_none tail h]
  | cons c pre ih =>
      simp only [List.cons_append, lastDotIdx, List.append_eq, ih,
        List.length_cons]

/-- The Python suffix of a name ending in a proper, dot-free extension is
exactly that extension. -/
theorem pySuffix_append (pre tail : List Char) (hpre : pre ≠ [])
    (htail : tail ≠ []) (hdot : '.' ∉ tail) :
    pySuffix (pre ++ '.' :: tail) = '.' :: tail := by
  have h0 : 0 < pre.length := List.length_pos.mpr hpre
  have h1 : 0 < tail.length := List.length_pos.mpr htail
  have hlen : (pre ++ '.' :: tail).length = pre.length + tail.length + 1 := by
    simp only [List.length_append, List.length_cons]
    omega
  simp only [pySuffix, lastDotIdx_append pre tail hdot]
  rw [if_pos ⟨h0, by rw [hlen]; omega⟩]
  exact List.drop_left pre ('.' :: tail)

/-- Every allow-listed extension starts with a dot followed by a nonempty
dot-free tail. -/
theorem ext_shape (ext : List Char)
    (hext : ext ∈ IMAGE_EXTENSIONS ∨ ext ∈ VIDEO_EXTENSIONS) :
    ∃ tail, ext = '.' :: tail ∧ tail ≠ [] ∧ '.' ∉ tail := by
  rcases hext with h | h
  · simp only [IMAGE_EXTENSIONS, List.mem_cons, List.not_mem_nil,
      or_false] at h
    rcases h with h | h | h | h | h | h | h <;> subst h <;>
      exact ⟨_, rfl, by decide, by decide⟩
  · simp only [VIDEO_EXTENSIONS, List.mem_cons, List.not_mem_nil,
      or_false] at h
    rcases h with h | h | h | h | h <;> subst h <;>
      exact ⟨_, rfl, by decide, by decide⟩

/-- The allow-listed extensions are already lowercase. -/
theorem ext_map_toLower (ext : List Char)
    (hext : ext ∈ IMAGE_EXTENSIONS ∨ ext ∈ VIDEO_EXTENSIONS) :
    ext.map Char.toLower = ext := by
  rcases hext with h | h
  · simp only [IMAGE_EXTENSIONS, List.mem_cons, List.not_mem_nil,
      or_false] at h
    rcases h with h | h | h | h | h | h | h <;> subst h <;> decide
  · simp only [VIDEO_EXTENSIONS, List.mem_cons, List.not_mem_nil,
      or_false] at h
    rcases h with h | h | h | h | h <;> subst h <;> decide

/-- A file matching the glob of an allow-listed extension, other than the
bare extension itself, has exactly that extension as its Python suffix. -/
theorem pySuffix_of_globMatch (ext name : List Char)
    (hext : ext ∈ IMAGE_EXTENSIONS ∨ ext ∈ VIDEO_EXTENSIONS)
    (hg : globMatch ext name = true) (hnb : name ≠ ext) :
    pySuffix name = ext := by
  simp only [globMatch] at hg
  obtain ⟨pre, hpre⟩ := List.isSuffixOf_iff_suffix.mp hg
  obtain ⟨tail, htl, hne, hnd⟩ := ext_shape ext hext
  subst htl
  have hpre0 : pre ≠ [] := by
    intro h0
    subst h0
    rw [List.nil_append] at hpre
    exact hnb hpre.symm
  rw [← hpre, pySuffix_append pre tail hpre0 hne hnd]

/-- A readable image file `a.jpg`. -/
def goodJpg : MediaFile :=
  { name := ['a', '.', 'j', 'p', 'g']
    readResult := Except.ok (some testImage)
    opened := true
    restResult := Except.ok () }

/-- A corrupt image file `b.jpg`: `cv2.imread` yields nothing. -/
def corruptJpg : MediaFile :=
  { name := ['b', '.', 'j', 'p', 'g']
    readResult := Except.ok none
    opened := false
    restResult := Except.ok () }

/-- A readable image file `c.png`. -/
def goodPng : MediaFile :=
  { name := ['c', '.', 'p', 'n', 'g']
    readResult := Except.ok (some testImage)
    opened := true
    restResult := Except.ok () }

/-- A non-media file `notes.txt`. -/
def textFile : MediaFile :=
  { name := ['n', 'o', 't', 'e', 's', '.', 't', 'x', 't']
    readResult := Except.ok none
    opened := false
    restResult := Except.ok () }

set_option maxRecDepth 1000000 in
/-- Claim C7: every error raised while processing one file is caught at the
batch-item boundary (a raising `process_image`/`process_video` body yields
`False`, never a propagating exception), the batch loop always continues
with the remaining files, the final tally counts exactly the successful
files, and a folder with two valid images and one corrupt file, letterboxed
to 64x64, yields a success count of 2 with the corrupt file reported as
failed. -/
theorem claim_C7_batch_error_containment
    (resizeFn : Image → Nat → Nat → Image) (tw th : Nat)
    (mode : AspectRatioMode) (anchor : AnchorArg) (color : Color) :
    (∀ f : MediaFile, ∀ e : String,
      process_image_body resizeFn tw th mode anchor color f =
        Except.error e →
      process_image resizeFn tw th mode anchor color f = false) ∧
    (∀ f : MediaFile, ∀ e : String,
      process_video_body f = Except.error e → process_video f = false) ∧
    (∀ f rest, batch_success_count resizeFn tw th mode anchor color
        (f :: rest) =
      (if batch_item resizeFn tw th mode anchor color f then 1 else 0) +
        batch_success_count resizeFn tw th mode anchor color rest) ∧
    (∀ files : List MediaFile,
      batch_success_count resizeFn tw th mode anchor color files =
        (files.filter
          (fun f => batch_item resizeFn tw th mode anchor color f)).length) ∧
    (batch_process resizeFn [goodJpg, corruptJpg, goodPng] 64 64
        AspectRatioMode.LETTERBOX anchor color "images").successCount =
      some 2 ∧
    batch_item resizeFn 64 64 AspectRatioMode.LETTERBOX anchor color
      corruptJpg = false := by
  refine ⟨?_, ?_, fun f rest => rfl, ?_, rfl, rfl⟩
  · intro f e he
    simp [process_image, he]
  · intro f e he
    simp [process_video, he]
  · intro files
    induction files with
    | nil => rfl
    | cons f rest ih =>
        by_cases hb : batch_item resizeFn tw th mode anchor color f = true
        · simp only [batch_success_count, List.filter_cons, hb, if_true,
            List.length_cons, ih]
          omega
        · rw [Bool.not_eq_true] at hb
          simp only [batch_success_count, List.filter_cons, hb,
            Bool.false_eq_true, if_false, ih]
          omega

/-- Witness for C7: a raising read is reported as failure, and the batch of
two valid images plus one corrupt file tallies 2. -/
theorem claim_C7_witness :
    process_image modelResize 64 64 AspectRatioMode.LETTERBOX
        (AnchorArg.known CropAnchor.CENTER) ⟨0, 0, 0⟩
        { name := ['x', '.', 'j', 'p', 'g']
          readResult := Except.error "read failed"
          opened := false
          restResult := Except.ok () } = false ∧
    (batch_process modelResize [goodJpg, corruptJpg, goodPng] 64 64
        AspectRatioMode.LETTERBOX (AnchorArg.known CropAnchor.CENTER)
        ⟨0, 0, 0⟩ "images").successCount = some 2 :=
  ⟨(claim_C7_batch_error_containment modelResize 64 64
      AspectRatioMode.LETTERBOX (AnchorArg.known CropAnchor.CENTER)
      ⟨0, 0, 0⟩).1 _ "read failed" rfl,
    (claim_C7_batch_error_containment modelResize 64 64
      AspectRatioMode.LETTERBOX (AnchorArg.known CropAnchor.CENTER)
      ⟨0, 0, 0⟩).2.2.2.2.1⟩

/-- All glob filters over a list of extensions that nothing matches leave
the accumulator unchanged. -/
theorem foldl_filter_init (folder : List MediaFile)
    (exts : List (List Char)) (init : List MediaFile)
    (h : ∀ f ∈ folder, ∀ ext ∈ exts, globMatch ext f.name = false) :
    exts.foldl
      (fun acc ext => acc ++ folder.filter (fun f => globMatch ext f.name))
      init = init := by
  induction exts generalizing init with
  | nil => rfl
  | cons e rest ih =>
      rw [List.foldl_cons]
      have hfe : folder.filter (fun f => globMatch e f.name) = [] :=
        List.filter_eq_nil_iff.mpr (fun f hf => by
          simp [h f hf e (List.mem_cons_self e rest)])
      rw [hfe, List.append_nil]
      exact ih init (fun f hf ext hext =>
        h f hf ext (List.mem_cons_of_mem e hext))

/-- Claim C8: when no file of the input folder matches any allow-listed
image or video extension, `get_media_files` discovers nothing and
`batch_process` warns, processes nothing, writes no output and reports no
tally. -/
theorem claim_C8_empty_folder (resizeFn : Image → Nat → Nat → Image)
    (folder : List MediaFile) (tw th : Nat) (mode : AspectRatioMode)
    (anchor : AnchorArg) (color : Color) (media_type : String)
    (himg : ∀ f ∈ folder, ∀ ext ∈ IMAGE_EXTENSIONS,
      globMatch ext f.name = false)
    (hvid : ∀ f ∈ folder, ∀ ext ∈ VIDEO_EXTENSIONS,
      globMatch ext f.name = false) :
    get_media_files folder media_type = [] ∧
    batch_process resizeFn folder tw th mode anchor color media_type =
      { warnedNoMedia := true
        attempted := []
        outputsWritten := []
        successCount := none } := by
  have hempty : get_media_files folder media_type = [] := by
    simp only [get_media_files]
    have h1 : (if media_type = "images" ∨ media_type = "both" then
        IMAGE_EXTENSIONS.foldl (fun acc ext =>
          acc ++ folder.filter (fun f => globMatch ext f.name)) []
      else []) = [] := by
      split
      · exact foldl_filter_init folder IMAGE_EXTENSIONS [] himg
      · rfl
    have h2 : (if media_type = "videos" ∨ media_type = "both" then
        VIDEO_EXTENSIONS.foldl (fun acc ext =>
          acc ++ folder.filter (fun f => globMatch ext f.name)) []
      else []) = [] := by
      split
      · exact foldl_filter_init folder VIDEO_EXTENSIONS [] hvid
      · rfl
    rw [h1, h2]
    rfl
  refine ⟨hempty, ?_⟩
  simp [batch_process, hempty]

/-- Witness for C8: a folder holding only `notes.txt`. -/
theorem claim_C8_witness :
    ((∀ f ∈ [textFile], ∀ ext ∈ IMAGE_EXTENSIONS,
        globMatch ext f.name = false) ∧
      (∀ f ∈ [textFile], ∀ ext ∈ VIDEO_EXTENSIONS,
        globMatch ext f.name = false)) ∧
    (get_media_files [textFile] "both" = [] ∧
      batch_process modelResize [textFile] 64 64 AspectRatioMode.LETTERBOX
        (AnchorArg.known CropAnchor.CENTER) ⟨0, 0, 0⟩ "both" =
        { warnedNoMedia := true
          attempted := []
          outputsWritten := []
          successCount := none }) :=
  ⟨⟨by decide, by decide⟩,
    claim_C8_empty_folder modelResize [textFile] 64 64
      AspectRatioMode.LETTERBOX (AnchorArg.known CropAnchor.CENTER)
      ⟨0, 0, 0⟩ "both" (by decide) (by decide)⟩

/-- A file named exactly `.jpg`: a bare extension with nothing before the
dot, whose pathlib suffix is therefore empty. -/
def dotJpg : MediaFile :=
  { name := ['.', 'j', 'p', 'g']
    readResult := Except.ok none
    opened := false
    restResult := Except.ok () }

/-- Claim C10 counterexample: dispatch is not consistent with the
image/video predicates on every discovered file.  A file named exactly
`.jpg` is discovered by the `*.jpg` glob of an images-only run, but its
pathlib suffix is empty (the only dot is the leading one), so
`is_image_file` and `is_video_file` are both false and the batch loop's
`is_image` test sends it to `process_video`. -/
theorem claim_C10_counterexample :
    dotJpg ∈ get_media_files [dotJpg] "images" ∧
    is_image_file dotJpg.name = false ∧
    is_video_file dotJpg.name = false ∧
    batch_dispatch dotJpg = Dispatch.video ∧
    ¬((is_image_file dotJpg.name = true ∧
        batch_dispatch dotJpg = Dispatch.image) ∨
      (is_video_file dotJpg.name = true ∧
        batch_dispatch dotJpg = Dispatch.video)) := by
  refine ⟨?_, by decide, by decide, by decide, by decide⟩
  rw [show get_media_files [dotJpg] "images" = [dotJpg] from rfl]
  exact List.mem_cons_self dotJpg []

/-- Claim C10 (amended): the image and video allow-lists are disjoint;
membership is decided on the lowercased suffix, so no name is both an image
and a video file; and every file discovered by the batch whose name is not
itself a bare allow-listed extension (a name like `.jpg`, which the glob
also matches) is dispatched to exactly one processor — `process_image` for
image files, `process_video` for video files. -/
theorem claim_C10_disjoint_dispatch :
    (∀ ext ∈ IMAGE_EXTENSIONS, ext ∉ VIDEO_EXTENSIONS) ∧
    (∀ name : List Char,
      ¬(is_image_file name = true ∧ is_video_file name = true)) ∧
    (∀ folder : List MediaFile, ∀ media_type : String, ∀ f : MediaFile,
      f ∈ get_media_files folder media_type →
        f.name ∉ IMAGE_EXTENSIONS → f.name ∉ VIDEO_EXTENSIONS →
        (is_image_file f.name = true ∧ batch_dispatch f = Dispatch.image) ∨
        (is_video_file f.name = true ∧ batch_dispatch f = Dispatch.video)) := by
  refine ⟨by decide, ?_, ?_⟩
  · rintro name ⟨h1, h2⟩
    simp only [is_image_file, is_video_file, decide_eq_true_eq] at h1 h2
    exact (by decide : ∀ s ∈ IMAGE_EXTENSIONS, s ∉ VIDEO_EXTENSIONS) _ h1 h2
  · intro folder media_type f hf hfi hfv
    obtain ⟨hfolder, ext, hext, hg⟩ :=
      mem_get_media_files folder media_type f hf
    have hne : f.name ≠ ext := by
      intro he
      rcases hext with h | h
      · rw [he] at hfi
        exact hfi h
      · rw [he] at hfv
        exact hfv h
    have hsuf := pySuffix_of_globMatch ext f.name hext hg hne
    have hlow : (pySuffix f.name).map Char.toLower = ext := by
      rw [hsuf]
      exact ext_map_toLower ext hext
    rcases hext with h | h
    · left
      refine ⟨?_, ?_⟩
      · simp [is_image_file, hlow, h]
      · simp [batch_dispatch, hlow, h]
    · right
      have hni : ext ∉ IMAGE_EXTENSIONS := fun hc =>
        (by decide : ∀ s ∈ IMAGE_EXTENSIONS, s ∉ VIDEO_EXTENSIONS) _ hc h
      refine ⟨?_, ?_⟩
      · simp [is_video_file, hlow, h]
      · simp [batch_dispatch, hlow, hni]

/-- Witness for C10: the discovered file `a.jpg`, whose name is not a bare
extension, is classified as an image and dispatched to the image
processor. -/
theorem claim_C10_witness :
    (goodJpg ∈ get_media_files [goodJpg] "both" ∧
      goodJpg.name ∉ IMAGE_EXTENSIONS ∧ goodJpg.name ∉ VIDEO_EXTENSIONS) ∧
    ((is_image_file goodJpg.name = true ∧
        batch_dispatch goodJpg = Dispatch.image) ∨
      (is_video_file goodJpg.name = true ∧
        batch_dispatch goodJpg = Dispatch.video)) :=
  ⟨⟨by
      rw [show get_media_files [goodJpg] "both" = [goodJpg] from rfl]
      exact List.mem_cons_self goodJpg [], by decide, by decide⟩,
  claim_C10_disjoint_dispatch.2.2 [goodJpg] "both" goodJpg (by
    rw [show get_media_files [goodJpg] "both" = [goodJpg] from rfl]
    exact List.mem_cons_self goodJpg []) (by decide) (by decide)⟩

end Tools
